import Mathlib

/-!
# UNO card game engine (backend/server.js): shallow embedding and verified properties

The class `CardGame` of `backend/server.js` is embedded as pure functions on an explicit
state record.  JavaScript arrays are lists in array order (index 0 first, `push` appends at
the end, `pop` removes the last element).  A slot that can hold `undefined` is an `Option`.
An uncaught `TypeError` (property access on `undefined`) is the result `none` of an
`Option`-valued operation.  `Math.random` is an explicit stream of naturals that the
operations consume and hand back.
-/

namespace Uno

/-! ## Data model -/

/-- Card object `{ color, value, type }`. -/
structure Card where
  color : String
  value : String
  type : String
deriving DecidableEq, Repr

/-- An array element or variable holding a card object or `undefined` (`none`). -/
abbrev Slot := Option Card

/-- Player object built by the constructor: `{ id, name, hand, position }`. -/
structure Player where
  id : String
  name : String
  hand : List Slot
  position : Nat
deriving DecidableEq, Repr

/-- Roster entry `{ id, name }` of a room, the constructor's input. -/
structure RosterEntry where
  id : String
  name : String
deriving DecidableEq, Repr

/-- Fields of a `CardGame` instance.  `currentColor` and `winner` start as `null` (`none`). -/
structure CardGame where
  roomId : String
  players : List Player
  deck : List Slot
  discardPile : List Slot
  currentPlayerIndex : Int
  direction : Int
  currentColor : Option String
  gameStarted : Bool
  winner : Option String
deriving DecidableEq, Repr

/-- Successive results of `Math.random`, each already scaled to a natural number; the call
`Math.floor(Math.random() * (i + 1))` is the head of the stream reduced modulo `i + 1`, so
every index in `0..i` can occur. -/
abbrev Rng := Nat → Nat

/-- The stream after one call of `Math.random`. -/
def Rng.rest (r : Rng) : Rng := fun n => r (n + 1)

/-- `const COLORS = ['red', 'blue', 'green', 'yellow']`. -/
def COLORS : List String := ["red", "blue", "green", "yellow"]

/-- `const SPECIAL_CARDS = ['skip', 'reverse', 'draw2']`. -/
def SPECIAL_CARDS : List String := ["skip", "reverse", "draw2"]

/-- `const WILD_CARDS = ['wild', 'wild-draw4']`. -/
def WILD_CARDS : List String := ["wild", "wild-draw4"]

/-! ## JavaScript array helpers -/

/-- `arr[i]` for a numeric index: `undefined` (`none`) outside `0 .. length - 1`. -/
def jsGet {α : Type} (l : List α) (i : Int) : Option α :=
  if i < 0 then none else l[i.toNat]?

/-- `arr[arr.length - 1]` on an array of slots: `undefined` when the array is empty. -/
def jsLast (l : List Slot) : Slot := l.getLast?.join

/-- `arr[i]` on an array of slots: a hole and an out-of-range index both read `undefined`. -/
def jsSlot (l : List Slot) (i : Int) : Slot := (jsGet l i).join

/-- Start position of `arr.splice(i, 1)`: a negative index counts from the end, clamped to
`0`; an index past the end is clamped to the length. -/
def spliceStart (len : Nat) (i : Int) : Nat :=
  if i < 0 then (len + i).toNat else min i.toNat len

/-- The expression `arr.splice(i, 1)[0]` with the array left behind. -/
def splice1 (l : List Slot) (i : Int) : Slot × List Slot :=
  ((l[spliceStart l.length i]?).join, l.eraseIdx (spliceStart l.length i))

/-- The destructuring swap of two in-range elements. -/
def swap {α : Type} (l : List α) (i j : Nat) : List α :=
  match l[i]?, l[j]? with
  | some x, some y => (l.set i y).set j x
  | _, _ => l

/-- The body `player.hand.push(card)` etc. applied to the object `players.find` returns:
the first player whose id matches. -/
def modifyFirst (id : String) (f : Player → Player) : List Player → List Player
  | [] => []
  | q :: qs => if q.id = id then f q :: qs else q :: modifyFirst id f qs

/-- `this.players.find(p => p.id === playerId)`. -/
def findPlayer (players : List Player) (playerId : String) : Option Player :=
  players.find? (fun q => decide (q.id = playerId))

/-! ## Deck construction and shuffle -/

/-- The nine pairs pushed by `for (let i = 1; i <= 9; i++)`. -/
def numberPairs (color : String) : List Card :=
  (["1", "2", "3", "4", "5", "6", "7", "8", "9"].map
    (fun v => [Card.mk color v "number", Card.mk color v "number"])).flatten

/-- The pairs pushed by `SPECIAL_CARDS.forEach`. -/
def specialPairs (color : String) : List Card :=
  (SPECIAL_CARDS.map
    (fun s => [Card.mk color s "special", Card.mk color s "special"])).flatten

/-- Cards pushed for one color by the body of `COLORS.forEach`. -/
def colorCards (color : String) : List Card :=
  Card.mk color "0" "number" :: (numberPairs color ++ specialPairs color)

/-- The four rounds of `for (let i = 0; i < 4; i++)` pushing a wild and a wild-draw4. -/
def wildCards : List Card :=
  (List.replicate 4 [Card.mk "wild" "wild" "wild", Card.mk "wild" "wild-draw4" "wild"]).flatten

/-- The cards `initializeDeck` pushes, in push order, before it calls `shuffleDeck`. -/
def unshuffledDeck : List Card :=
  (COLORS.map colorCards).flatten ++ wildCards

/-- The loop of `shuffleDeck` from index `i` down to `1`. -/
def shuffleLoop {α : Type} : Nat → Rng → List α → List α × Rng
  | 0, rng, deck => (deck, rng)
  | i + 1, rng, deck => shuffleLoop i rng.rest (swap deck (i + 1) (rng 0 % (i + 2)))

/-- `shuffleDeck()`: Fisher-Yates from `deck.length - 1` down to `1`. -/
def shuffleDeck {α : Type} (rng : Rng) (deck : List α) : List α × Rng :=
  shuffleLoop (deck.length - 1) rng deck

/-- The `players.map((p, idx) => ...)` of the constructor, from seat `idx` on. -/
def mkPlayers : Nat → List RosterEntry → List Player
  | _, [] => []
  | idx, e :: es => Player.mk e.id e.name [] idx :: mkPlayers (idx + 1) es

/-- `initializeDeck()` on the current deck array (empty when the constructor calls it):
push the 108 cards, then `shuffleDeck()`. -/
def initializeDeck (rng : Rng) (deck : List Slot) : List Slot × Rng :=
  shuffleDeck rng (deck ++ unshuffledDeck.map some)

/-- `new CardGame(roomId, players)`: the field initialisers, then `initializeDeck()`. -/
def CardGame.create (rng : Rng) (roomId : String) (roster : List RosterEntry) :
    CardGame × Rng :=
  let sh := initializeDeck rng []
  ({ roomId := roomId, players := mkPlayers 0 roster, deck := sh.1, discardPile := [],
     currentPlayerIndex := 0, direction := 1, currentColor := none, gameStarted := false,
     winner := none }, sh.2)

/-! ## Dealing -/

/-- The inner loop `for (let i = 0; i < 7; i++) player.hand.push(this.deck.pop())`,
with `n` rounds left; returns the hand and the deck. -/
def dealLoop : Nat → List Slot → List Slot → List Slot × List Slot
  | 0, hand, deck => (hand, deck)
  | n + 1, hand, deck => dealLoop n (hand ++ [jsLast deck]) deck.dropLast

/-- `this.players.forEach(player => ...)` of `dealCards`. -/
def dealHands : List Player → List Slot → List Player × List Slot
  | [], deck => ([], deck)
  | q :: qs, deck =>
    let r := dealLoop 7 q.hand deck
    let rs := dealHands qs r.2
    ({ q with hand := r.1 } :: rs.1, rs.2)

/-- The `do { firstCard = this.deck.pop() } while (firstCard.type === 'wild')` loop, on the
deck listed from its top (the reversed array).  Returns the first card that is not wild
and the cards left under it; `none` when the deck runs out, where `firstCard.type` reads a
property of `undefined`. -/
def seedLoop : List Slot → Option (Card × List Slot)
  | [] => none
  | none :: _ => none
  | some c :: rest => if c.type = "wild" then seedLoop rest else some (c, rest)

/-- `dealCards()`. -/
def dealCards (g : CardGame) : Option CardGame :=
  let dealt := dealHands g.players g.deck
  match seedLoop dealt.2.reverse with
  | none => none
  | some (firstCard, rest) =>
    some { g with players := dealt.1, deck := rest.reverse,
                  discardPile := g.discardPile ++ [some firstCard],
                  currentColor := some firstCard.color }

/-! ## Drawing -/

/-- The reshuffle branch of `drawCard`, taken when `this.deck.length === 0`. -/
def reshuffle (rng : Rng) (g : CardGame) : CardGame × Rng :=
  let topCard := jsLast g.discardPile
  let sh := shuffleDeck rng g.discardPile.dropLast
  ({ g with deck := sh.1, discardPile := [topCard] }, sh.2)

/-- `drawCard(playerId)`.  The first component is the returned value: `none` is `null`
(no such player), `some none` is `undefined` (popped from an empty deck). -/
def drawCard (rng : Rng) (g : CardGame) (playerId : String) : Option Slot × CardGame × Rng :=
  match findPlayer g.players playerId with
  | none => (none, g, rng)
  | some _ =>
    let r := if g.deck.length = 0 then reshuffle rng g else (g, rng)
    let card := jsLast r.1.deck
    (some card,
     { r.1 with deck := r.1.deck.dropLast,
                players := modifyFirst playerId
                  (fun q => { q with hand := q.hand ++ [card] }) r.1.players },
     r.2)

/-! ## Playing -/

/-- `nextPlayer()`; the JavaScript `%` truncates towards zero.  With no players at all
JavaScript yields `NaN`, which the integer model does not represent; the constructor is
only called on a roster of at least two. -/
def nextPlayer (g : CardGame) : CardGame :=
  { g with currentPlayerIndex :=
      Int.tmod (g.currentPlayerIndex + g.direction + g.players.length) g.players.length }

/-- `canPlayCard(card, playerId)`; `none` is a `TypeError`: `currentPlayer.id`, `card.type`
or `topCard.value` read on `undefined`. -/
def canPlayCard (g : CardGame) (card : Slot) (playerId : String) : Option Bool :=
  match jsGet g.players g.currentPlayerIndex with
  | none => none
  | some currentPlayer =>
    if currentPlayer.id ≠ playerId then some false
    else
      match card with
      | none => none
      | some c =>
        if c.type = "wild" then some true
        else if some c.color = g.currentColor then some true
        else
          match jsLast g.discardPile with
          | none => none
          | some topCard => some (decide (c.value = topCard.value))

/-- The loop `for (let i = 0; i < n; i++) this.drawCard(id)` of `applyCardEffect`. -/
def forcedDraws : Nat → Rng → CardGame → String → CardGame × Rng
  | 0, rng, g, _ => (g, rng)
  | n + 1, rng, g, id =>
    let r := drawCard rng g id
    forcedDraws n r.2.2 r.2.1 id

/-- The `draw2` and `wild-draw4` cases: `nextPlayer()`, read `players[currentPlayerIndex]`,
draw `n` times for its id. -/
def drawEffect (n : Nat) (rng : Rng) (g : CardGame) : Option (CardGame × Rng) :=
  let g1 := nextPlayer g
  match jsGet g1.players g1.currentPlayerIndex with
  | none => none
  | some victim => some (forcedDraws n rng g1 victim.id)

/-- `applyCardEffect(card)`: the `switch` on `card.value`, then the trailing
`nextPlayer()`. -/
def applyCardEffect (rng : Rng) (g : CardGame) (card : Card) : Option (CardGame × Rng) :=
  let afterSwitch : Option (CardGame × Rng) :=
    if card.value = "skip" then some (nextPlayer g, rng)
    else if card.value = "reverse" then
      let g1 := { g with direction := g.direction * -1 }
      some (if g1.players.length = 2 then nextPlayer g1 else g1, rng)
    else if card.value = "draw2" then drawEffect 2 rng g
    else if card.value = "wild-draw4" then drawEffect 4 rng g
    else some (g, rng)
  match afterSwitch with
  | none => none
  | some r => some (nextPlayer r.1, r.2)

/-- The object `playCard` returns: `{ success: false, message }`, `{ success: true, card }`
or `{ success: true, card, winner }`; an absent key is `none`. -/
structure PlayResult where
  success : Bool
  message : Option String
  card : Option Card
  winner : Option String
deriving DecidableEq, Repr

/-- `chosenColor || COLORS[0]`: `null`, `undefined` and the empty string are falsy. -/
def colorOrDefault (chosenColor : Option String) : String :=
  match chosenColor with
  | none => COLORS.headD ""
  | some s => if s = "" then COLORS.headD "" else s

/-- `playCard(playerId, cardIndex, chosenColor = null)`; `none` is a `TypeError`. -/
def playCard (rng : Rng) (g : CardGame) (playerId : String) (cardIndex : Int)
    (chosenColor : Option String) : Option (PlayResult × CardGame × Rng) :=
  match findPlayer g.players playerId with
  | none => none
  | some player =>
    match canPlayCard g (jsSlot player.hand cardIndex) playerId with
    | none => none
    | some false =>
      some ({ success := false, message := some "Invalid card", card := none,
              winner := none }, g, rng)
    | some true =>
      let sp := splice1 player.hand cardIndex
      match sp.1 with
      | none => none
      | some card =>
        let g1 : CardGame :=
          { g with players := modifyFirst playerId (fun q => { q with hand := sp.2 }) g.players,
                   discardPile := g.discardPile ++ [some card],
                   currentColor :=
                     some (if card.type = "wild" then colorOrDefault chosenColor
                           else card.color) }
        if sp.2.length = 0 then
          some ({ success := true, message := none, card := some card,
                  winner := some playerId },
                { g1 with winner := some playerId }, rng)
        else
          match applyCardEffect rng g1 card with
          | none => none
          | some r =>
            some ({ success := true, message := none, card := some card, winner := none },
                  r.1, r.2)

/-! ## Projection -/

/-- One element of the `players` array of a game-state view; `hand = none` is
`undefined`. -/
structure PlayerView where
  id : String
  name : String
  cardCount : Nat
  hand : Option (List Slot)
  position : Nat
deriving DecidableEq, Repr

/-- The object returned by `getGameState`. -/
structure GameStateView where
  roomId : String
  players : List PlayerView
  topCard : Slot
  currentColor : Option String
  currentPlayerIndex : Int
  currentPlayerId : String
  deckCount : Nat
  direction : Int
  gameStarted : Bool
  winner : Option String
deriving DecidableEq, Repr

/-- The mapping `p => ({ id, name, cardCount, hand, position })` of `getGameState`. -/
def viewPlayer (playerId : Option String) (q : Player) : PlayerView :=
  { id := q.id, name := q.name, cardCount := q.hand.length,
    hand := if some q.id = playerId then some q.hand else none,
    position := q.position }

/-- `getGameState(playerId = null)`; `none` is the `TypeError` of
`this.players[this.currentPlayerIndex].id` on `undefined`. -/
def getGameState (g : CardGame) (playerId : Option String) : Option GameStateView :=
  match jsGet g.players g.currentPlayerIndex with
  | none => none
  | some cur =>
    some { roomId := g.roomId, players := g.players.map (viewPlayer playerId),
           topCard := jsLast g.discardPile, currentColor := g.currentColor,
           currentPlayerIndex := g.currentPlayerIndex, currentPlayerId := cur.id,
           deckCount := g.deck.length, direction := g.direction,
           gameStarted := g.gameStarted, winner := g.winner }

/-! ## The draw-card intent -/

/-- The engine part of `socket.on('draw-card')` for a session whose room has a game:
`room.game.drawCard(socket.id); room.game.nextPlayer();`. -/
def onDrawCard (rng : Rng) (g : CardGame) (socketId : String) : CardGame × Rng :=
  let r := drawCard rng g socketId
  (nextPlayer r.2.1, r.2.2)

/-! ## The start-game intent -/

/-- The engine part of `socket.on('start-game')` once its guards have passed:
`new CardGame(roomId, room.players)`, `dealCards()`, `gameStarted = true`. -/
def startGame (rng : Rng) (roomId : String) (roster : List RosterEntry) :
    Option (CardGame × Rng) :=
  let r := CardGame.create rng roomId roster
  match dealCards r.1 with
  | none => none
  | some g => some ({ g with gameStarted := true }, r.2)

/-! ## Rooms and the start-game handler -/

/-- A room record `{ players, game }` of `gameRooms`; `game = none` is `null`. -/
structure Room where
  players : List RosterEntry
  game : Option CardGame
deriving DecidableEq, Repr

/-- The loop `room.players.forEach(player => io.to(player.id).emit('game-started',
game.getGameState(player.id)))`: the views sent with their addressees, in roster order;
`none` when `getGameState` throws. -/
def emitGameStarted (g : CardGame) : List RosterEntry → Option (List (String × GameStateView))
  | [] => some []
  | e :: es =>
    match getGameState g (some e.id) with
    | none => none
    | some v =>
      match emitGameStarted g es with
      | none => none
      | some vs => some ((e.id, v) :: vs)

/-- What a run of the start-game handler leaves behind: the room record, the message of
the `error` event sent to the originating socket (if any), and the `game-started` views
sent. -/
structure StartOutcome where
  room : Room
  error : Option String
  started : List (String × GameStateView)
deriving DecidableEq, Repr

/-- `socket.on('start-game')` for a session whose `playerSockets` entry names the existing
room `room` with id `roomId`; `none` is an uncaught `TypeError`. -/
def onStartGame (rng : Rng) (roomId : String) (room : Room) : Option (StartOutcome × Rng) :=
  if room.players.length < 2 then
    some ({ room := room, error := some "Need at least 2 players to start", started := [] },
          rng)
  else
    match startGame rng roomId room.players with
    | none => none
    | some r =>
      match emitGameStarted r.1 room.players with
      | none => none
      | some vs =>
        some ({ room := { room with game := some r.1 }, error := none, started := vs }, r.2)

/-- The guard of `socket.on('join-room')` that answers `Game already in progress`:
`room.game && room.game.gameStarted`. -/
def gameInProgress (room : Room) : Bool :=
  match room.game with
  | none => false
  | some g => g.gameStarted

/-! ## Measures -/

/-- The sum of all hand sizes. -/
def handTotal (players : List Player) : Nat := (players.map (fun q => q.hand.length)).sum

/-- The count `|deck| + |discardPile| + Σ |hand|`. -/
def total (g : CardGame) : Nat :=
  g.deck.length + g.discardPile.length + handTotal g.players

/-! ## Vocabulary of the statements -/

/-- The engine state of `playCard` right after the color update (`splice`, `push` on the
discard pile, assignment of `currentColor`), before the winner check: `hand` is the hand
left to the acting player. -/
def afterDiscard (g : CardGame) (playerId : String) (hand : List Slot) (card : Card)
    (chosenColor : Option String) : CardGame :=
  { g with players := modifyFirst playerId (fun q => { q with hand := hand }) g.players,
           discardPile := g.discardPile ++ [some card],
           currentColor :=
             some (if card.type = "wild" then colorOrDefault chosenColor else card.color) }

/-- Number of cards the `switch` of `applyCardEffect` makes the next player draw. -/
def forcedCount (value : String) : Nat :=
  if value = "draw2" then 2 else if value = "wild-draw4" then 4 else 0

/-- Net number of seats the turn moves after a play, as the effect table of the
specification gives it: 2 for skip, draw2, wild-draw4 and for reverse between two
players, otherwise 1. -/
def turnSteps (value : String) (n : Nat) : Int :=
  if value = "skip" ∨ value = "draw2" ∨ value = "wild-draw4" ∨ (value = "reverse" ∧ n = 2)
  then 2 else 1

/-- The result object of a successful play. -/
def successResult (card : Card) (winner : Option String) : PlayResult :=
  { success := true, message := none, card := some card, winner := winner }

/-- The result object `{ success: false, message: 'Invalid card' }`. -/
def invalidCard : PlayResult :=
  { success := false, message := some "Invalid card", card := none, winner := none }

/-- The test `firstCard.type === 'wild'` on a popped slot that holds a card. -/
def isWildSlot : Slot → Bool
  | some c => decide (c.type = "wild")
  | none => false

/-- Number of wild cards that the seeding loop of `dealCards` pops and drops on a game
fresh from the constructor: the run of wild cards on top of the deck once the hands have
been dealt. -/
def setAside (g : CardGame) : Nat :=
  ((dealHands g.players g.deck).2.reverse.takeWhile isWildSlot).length

/-- Engine states reached from `g0` by a finite sequence of `playCard` and `drawCard`
calls, with any random outcomes, in which no draw starves: a `drawCard` call is made with
a card in the deck or at least two entries in the discard pile, and a play without winner
of a card that forces `n` draws is made with at least `n` entries in deck and discard
pile together. -/
inductive Run (g0 : CardGame) : CardGame → Prop
  | start : Run g0 g0
  | play (rng : Rng) (g : CardGame) (p : String) (i : Int) (c : Option String)
      (out : PlayResult × CardGame × Rng) :
      Run g0 g → playCard rng g p i c = some out →
      (∀ card, out.1.card = some card → out.1.winner = none →
        forcedCount card.value ≤ g.deck.length + g.discardPile.length) →
      Run g0 out.2.1
  | draw (rng : Rng) (g : CardGame) (p : String) :
      Run g0 g → (g.deck ≠ [] ∨ 2 ≤ g.discardPile.length) →
      Run g0 (drawCard rng g p).2.1

/-- Values of `chosenColor` under which `chosenColor || COLORS[0]` is one of `COLORS`:
absent or empty (both fall back to `COLORS[0]`), or one of the four colors. -/
def canonicalChoice (c : Option String) : Prop :=
  ∀ s, c = some s → s = "" ∨ s ∈ COLORS

/-- A slot that holds no card, a wild card, or a card whose color is one of `COLORS`. -/
def slotOK (s : Slot) : Prop :=
  ∀ c, s = some c → c.type = "wild" ∨ c.color ∈ COLORS

/-- Every slot of deck, discard pile and hands is `slotOK`. -/
def AllOK (g : CardGame) : Prop :=
  (∀ s ∈ g.deck, slotOK s) ∧ (∀ s ∈ g.discardPile, slotOK s) ∧
  ∀ q ∈ g.players, ∀ s ∈ q.hand, slotOK s

/-- Engine states reached from a constructed game `g0` by `dealCards` (and the assignment
`gameStarted = true` of the start-game handler) followed by any finite sequence of
`playCard`, `drawCard` and `nextPlayer` calls that return, with any arguments and any
random outcomes; `allowed` restricts the `chosenColor` arguments of the `playCard`
calls. -/
inductive Reachable (allowed : Option String → Prop) (g0 : CardGame) : CardGame → Prop
  | deal (g1 : CardGame) : dealCards g0 = some g1 → Reachable allowed g0 g1
  | started (g : CardGame) :
      Reachable allowed g0 g → Reachable allowed g0 { g with gameStarted := true }
  | play (rng : Rng) (g : CardGame) (p : String) (i : Int) (c : Option String)
      (out : PlayResult × CardGame × Rng) :
      Reachable allowed g0 g → allowed c → playCard rng g p i c = some out →
      Reachable allowed g0 out.2.1
  | draw (rng : Rng) (g : CardGame) (p : String) :
      Reachable allowed g0 g → Reachable allowed g0 (drawCard rng g p).2.1
  | next (g : CardGame) : Reachable allowed g0 g → Reachable allowed g0 (nextPlayer g)

/-- Number of copies of the card `c` among the slots of `deck`. -/
def copies (c : Card) (deck : List Slot) : Nat :=
  deck.countP (fun s => decide (s = some c))

/-! ## Sample games -/

/-- A two-seat roster. -/
def roster2 : List RosterEntry := [⟨"A", "Ann"⟩, ⟨"B", "Ben"⟩]

/-- A random stream under which every round of `shuffleDeck` on 108 cards picks `j = i`:
the deck keeps its construction order. -/
def orderedRng : Rng := fun n => 107 - n

/-- A random stream whose first round swaps index 107 with index 93 and whose later rounds
pick `j = i`: with two players the fifteenth card from the top is a wild-draw4. -/
def wildFifteenthRng : Rng := fun n => if n = 0 then 93 else 107 - n

/-- The game `start-game` builds for `roster2` when the shuffle follows `orderedRng`. -/
def openingGame : Option CardGame :=
  (startGame orderedRng "ROOM" roster2).map (fun r => r.1)

/-- The value of `openingGame`, written out: the top fifteen cards of the ordered deck are
dealt (seven wild cards to `A`; a wild, the yellow draw2, reverse and skip pairs to `B`;
a yellow 9 to the discard pile) and the other 93 stay in the deck. -/
def openingState : CardGame :=
  { roomId := "ROOM",
    players :=
      [⟨"A", "Ann",
        [some ⟨"wild", "wild-draw4", "wild"⟩, some ⟨"wild", "wild", "wild"⟩,
         some ⟨"wild", "wild-draw4", "wild"⟩, some ⟨"wild", "wild", "wild"⟩,
         some ⟨"wild", "wild-draw4", "wild"⟩, some ⟨"wild", "wild", "wild"⟩,
         some ⟨"wild", "wild-draw4", "wild"⟩], 0⟩,
       ⟨"B", "Ben",
        [some ⟨"wild", "wild", "wild"⟩,
         some ⟨"yellow", "draw2", "special"⟩, some ⟨"yellow", "draw2", "special"⟩,
         some ⟨"yellow", "reverse", "special"⟩, some ⟨"yellow", "reverse", "special"⟩,
         some ⟨"yellow", "skip", "special"⟩, some ⟨"yellow", "skip", "special"⟩], 1⟩],
    deck := (unshuffledDeck.take 93).map some,
    discardPile := [some ⟨"yellow", "9", "number"⟩],
    currentPlayerIndex := 0, direction := 1, currentColor := some "yellow",
    gameStarted := true, winner := none }

/-- The position after `dealCards` on the ordered deck (before the handler sets
`gameStarted`) once `A` has played the wild it holds at index 1 and chosen green: the turn
is with `B`. -/
def afterWildState : CardGame :=
  { openingState with
      players :=
        [⟨"A", "Ann",
          [some ⟨"wild", "wild-draw4", "wild"⟩,
           some ⟨"wild", "wild-draw4", "wild"⟩, some ⟨"wild", "wild", "wild"⟩,
           some ⟨"wild", "wild-draw4", "wild"⟩, some ⟨"wild", "wild", "wild"⟩,
           some ⟨"wild", "wild-draw4", "wild"⟩], 0⟩,
         ⟨"B", "Ben",
          [some ⟨"wild", "wild", "wild"⟩,
           some ⟨"yellow", "draw2", "special"⟩, some ⟨"yellow", "draw2", "special"⟩,
           some ⟨"yellow", "reverse", "special"⟩, some ⟨"yellow", "reverse", "special"⟩,
           some ⟨"yellow", "skip", "special"⟩, some ⟨"yellow", "skip", "special"⟩], 1⟩],
      discardPile := [some ⟨"yellow", "9", "number"⟩, some ⟨"wild", "wild", "wild"⟩],
      currentPlayerIndex := 1, currentColor := some "green", gameStarted := false }

/-- A roster in which the session `A` occupies two seats: `join-room` pushes
`{ id: socket.id, name }` without looking for the id in the roster. -/
def twinRoster : List RosterEntry := [⟨"A", "Ann"⟩, ⟨"A", "Ann"⟩, ⟨"B", "Ben"⟩]

/-- The game `start-game` builds for `twinRoster` when the shuffle follows `orderedRng`,
written out: seats 0 and 1 both carry the id `A`, the discard pile is a yellow 6 and 86
cards stay in the deck. -/
def twinState : CardGame :=
  { roomId := "ROOM",
    players :=
      [⟨"A", "Ann",
        [some ⟨"wild", "wild-draw4", "wild"⟩, some ⟨"wild", "wild", "wild"⟩,
         some ⟨"wild", "wild-draw4", "wild"⟩, some ⟨"wild", "wild", "wild"⟩,
         some ⟨"wild", "wild-draw4", "wild"⟩, some ⟨"wild", "wild", "wild"⟩,
         some ⟨"wild", "wild-draw4", "wild"⟩], 0⟩,
       ⟨"A", "Ann",
        [some ⟨"wild", "wild", "wild"⟩,
         some ⟨"yellow", "draw2", "special"⟩, some ⟨"yellow", "draw2", "special"⟩,
         some ⟨"yellow", "reverse", "special"⟩, some ⟨"yellow", "reverse", "special"⟩,
         some ⟨"yellow", "skip", "special"⟩, some ⟨"yellow", "skip", "special"⟩], 1⟩,
       ⟨"B", "Ben",
        [some ⟨"yellow", "9", "number"⟩, some ⟨"yellow", "9", "number"⟩,
         some ⟨"yellow", "8", "number"⟩, some ⟨"yellow", "8", "number"⟩,
         some ⟨"yellow", "7", "number"⟩, some ⟨"yellow", "7", "number"⟩,
         some ⟨"yellow", "6", "number"⟩], 2⟩],
    deck := (unshuffledDeck.take 86).map some,
    discardPile := [some ⟨"yellow", "6", "number"⟩],
    currentPlayerIndex := 0, direction := 1, currentColor := some "yellow",
    gameStarted := true, winner := none }

/-- A three-player position in mid-game: seat 0 (`A`) is to move on a red 3. -/
def tableGame : CardGame :=
  { roomId := "ROOM",
    players :=
      [⟨"A", "Ann", [some ⟨"red", "draw2", "special"⟩, some ⟨"blue", "7", "number"⟩], 0⟩,
       ⟨"B", "Ben", [some ⟨"green", "1", "number"⟩], 1⟩,
       ⟨"C", "Cleo", [some ⟨"red", "skip", "special"⟩], 2⟩],
    deck := [some ⟨"yellow", "2", "number"⟩, some ⟨"blue", "4", "number"⟩,
             some ⟨"green", "9", "number"⟩],
    discardPile := [some ⟨"red", "3", "number"⟩],
    currentPlayerIndex := 0, direction := 1, currentColor := some "red",
    gameStarted := true, winner := none }

/-- The position `tableGame` as seen by `A`, with everything `A` cannot see changed: other
hands of the same sizes, another deck of the same size, another card under the same
discard top. -/
def tableGameHidden : CardGame :=
  { roomId := "ROOM",
    players :=
      [⟨"A", "Ann", [some ⟨"red", "draw2", "special"⟩, some ⟨"blue", "7", "number"⟩], 0⟩,
       ⟨"B", "Ben", [some ⟨"wild", "wild", "wild"⟩], 1⟩,
       ⟨"C", "Cleo", [some ⟨"yellow", "0", "number"⟩], 2⟩],
    deck := [some ⟨"green", "9", "number"⟩, some ⟨"red", "1", "number"⟩,
             some ⟨"blue", "skip", "special"⟩],
    discardPile := [some ⟨"green", "3", "number"⟩, some ⟨"red", "3", "number"⟩],
    currentPlayerIndex := 0, direction := 1, currentColor := some "red",
    gameStarted := true, winner := none }

/-! ## Auxiliary facts about the array helpers -/

theorem jsGet_eq_some {α : Type} {l : List α} {i : Int} {x : α} (h : jsGet l i = some x) :
    0 ≤ i ∧ i.toNat < l.length ∧ l[i.toNat]? = some x := by
  unfold jsGet at h
  split at h
  · cases h
  · rename_i hi
    have hlt : i.toNat < l.length := by
      by_contra hc
      rw [List.getElem?_eq_none (by omega)] at h
      cases h
    exact ⟨by omega, hlt, h⟩

theorem jsGet_natCast {α : Type} (l : List α) (n : Nat) : jsGet l (n : Int) = l[n]? := by
  simp [jsGet]

theorem length_modifyFirst (id : String) (f : Player → Player) (ps : List Player) :
    (modifyFirst id f ps).length = ps.length := by
  induction ps with
  | nil => rfl
  | cons q qs ih =>
    unfold modifyFirst
    split <;> simp [ih]

theorem modifyFirst_of_find_none (id : String) (f : Player → Player) (ps : List Player)
    (h : findPlayer ps id = none) : modifyFirst id f ps = ps := by
  induction ps with
  | nil => rfl
  | cons q qs ih =>
    unfold findPlayer at h
    rw [List.find?_cons] at h
    unfold modifyFirst
    by_cases hq : q.id = id
    · simp [hq] at h
    · simp only [hq, decide_False] at h
      simp [hq, ih h]

theorem handTotal_modifyFirst (id : String) (f : Player → Player) (ps : List Player)
    (pl : Player) (h : findPlayer ps id = some pl) :
    handTotal (modifyFirst id f ps) + pl.hand.length = handTotal ps + (f pl).hand.length := by
  induction ps with
  | nil => simp [findPlayer] at h
  | cons q qs ih =>
    unfold findPlayer at h
    rw [List.find?_cons] at h
    unfold modifyFirst
    by_cases hq : q.id = id
    · simp only [hq, decide_True] at h
      cases h
      simp only [hq, if_true, handTotal, List.map_cons, List.sum_cons]
      omega
    · simp only [hq, decide_False] at h
      have := ih h
      simp only [hq, if_false, handTotal, List.map_cons, List.sum_cons] at this ⊢
      omega

theorem length_swap {α : Type} (l : List α) (i j : Nat) : (swap l i j).length = l.length := by
  unfold swap
  split <;> simp

theorem swap_perm {α : Type} [DecidableEq α] (l : List α) (i j : Nat) :
    (swap l i j).Perm l := by
  unfold swap
  split
  · rename_i x y hx hy
    obtain ⟨hi, hxe⟩ := List.getElem?_eq_some_iff.mp hx
    obtain ⟨hj, hye⟩ := List.getElem?_eq_some_iff.mp hy
    have h1 : 0 < List.count x l := List.count_pos_iff.mpr (hxe ▸ List.getElem_mem _)
    have h2 : 0 < List.count y l := List.count_pos_iff.mpr (hye ▸ List.getElem_mem _)
    rw [List.perm_iff_count]
    intro a
    rw [List.count_set _ _ _ _ (by simpa using hj), List.count_set _ _ _ _ hi]
    by_cases hij : i = j
    · subst hij
      have hxy : x = y := by rw [← hxe, ← hye]
      subst hxy
      simp only [List.getElem_set_self, hxe]
      by_cases hax : x = a
      · subst hax
        simp
        omega
      · simp [hax]
    · rw [List.getElem_set_ne hij]
      simp only [hxe, hye]
      by_cases hax : x = a
      · subst hax
        by_cases hay : y = x
        · subst hay
          simp
          omega
        · simp [hay]
          omega
      · by_cases hay : y = a
        · subst hay
          simp [hax]
        · simp [hax, hay]
  · exact List.Perm.refl _

theorem shuffleLoop_perm {α : Type} [DecidableEq α] (n : Nat) (rng : Rng) (l : List α) :
    (shuffleLoop n rng l).1.Perm l := by
  induction n generalizing rng l with
  | zero => exact List.Perm.refl _
  | succ k ih =>
    unfold shuffleLoop
    exact (ih _ _).trans (swap_perm _ _ _)

theorem shuffleDeck_perm {α : Type} [DecidableEq α] (rng : Rng) (l : List α) :
    (shuffleDeck rng l).1.Perm l := shuffleLoop_perm _ _ _

theorem length_shuffleDeck {α : Type} [DecidableEq α] (rng : Rng) (l : List α) :
    (shuffleDeck rng l).1.length = l.length := (shuffleDeck_perm rng l).length_eq

/-! ## Drawing: auxiliary facts -/

theorem jsLast_append_singleton (l : List Slot) (s : Slot) : jsLast (l ++ [s]) = s := by
  simp [jsLast]

theorem jsLast_singleton (s : Slot) : jsLast [s] = s := by
  simp [jsLast]

theorem drawCard_of_find_none (rng : Rng) (g : CardGame) (p : String)
    (h : findPlayer g.players p = none) : drawCard rng g p = (none, g, rng) := by
  simp [drawCard, h]

theorem drawCard_of_deck_ne (rng : Rng) (g : CardGame) (p : String) (pl : Player)
    (h : findPlayer g.players p = some pl) (hd : g.deck ≠ []) :
    drawCard rng g p =
      (some (jsLast g.deck),
       { g with deck := g.deck.dropLast,
                players := modifyFirst p
                  (fun q => { q with hand := q.hand ++ [jsLast g.deck] }) g.players },
       rng) := by
  have : g.deck.length ≠ 0 := by simpa using hd
  simp [drawCard, h, this]

theorem drawCard_of_deck_nil (rng : Rng) (g : CardGame) (p : String) (pl : Player)
    (h : findPlayer g.players p = some pl) (hd : g.deck = []) :
    drawCard rng g p =
      (some (jsLast (shuffleDeck rng g.discardPile.dropLast).1),
       { g with deck := (shuffleDeck rng g.discardPile.dropLast).1.dropLast,
                discardPile := [jsLast g.discardPile],
                players := modifyFirst p
                  (fun q => { q with hand :=
                    q.hand ++ [jsLast (shuffleDeck rng g.discardPile.dropLast).1] })
                  g.players },
       (shuffleDeck rng g.discardPile.dropLast).2) := by
  simp [drawCard, h, hd, reshuffle]

/-- What a draw never touches, and the discard top it keeps. -/
theorem drawCard_frame (rng : Rng) (g : CardGame) (p : String) :
    (drawCard rng g p).2.1.currentPlayerIndex = g.currentPlayerIndex ∧
    (drawCard rng g p).2.1.direction = g.direction ∧
    (drawCard rng g p).2.1.players.length = g.players.length ∧
    (drawCard rng g p).2.1.currentColor = g.currentColor ∧
    (drawCard rng g p).2.1.winner = g.winner ∧
    (drawCard rng g p).2.1.roomId = g.roomId ∧
    (drawCard rng g p).2.1.gameStarted = g.gameStarted ∧
    jsLast (drawCard rng g p).2.1.discardPile = jsLast g.discardPile := by
  cases h : findPlayer g.players p with
  | none => simp [drawCard_of_find_none rng g p h]
  | some pl =>
    by_cases hd : g.deck = []
    · simp [drawCard_of_deck_nil rng g p pl h hd, length_modifyFirst, jsLast_singleton]
    · simp [drawCard_of_deck_ne rng g p pl h hd, length_modifyFirst]

/-- A draw that finds a card to pop (deck not empty, or at least two discards to
reshuffle) keeps the card count and takes one card out of deck and discard pile. -/
theorem drawCard_total (rng : Rng) (g : CardGame) (p : String) (pl : Player)
    (h : findPlayer g.players p = some pl)
    (hs : g.deck ≠ [] ∨ 2 ≤ g.discardPile.length) :
    total (drawCard rng g p).2.1 = total g ∧
    (drawCard rng g p).2.1.deck.length + (drawCard rng g p).2.1.discardPile.length + 1
      = g.deck.length + g.discardPile.length ∧
    (1 ≤ g.discardPile.length → 1 ≤ (drawCard rng g p).2.1.discardPile.length) := by
  by_cases hd : g.deck = []
  · have h2 : 2 ≤ g.discardPile.length := by
      rcases hs with hs | hs
      · exact absurd hd hs
      · exact hs
    rw [drawCard_of_deck_nil rng g p pl h hd]
    have hm := handTotal_modifyFirst p
      (fun q => { q with hand :=
        q.hand ++ [jsLast (shuffleDeck rng g.discardPile.dropLast).1] }) g.players pl h
    simp only [total, List.length_dropLast, length_shuffleDeck, List.length_singleton, hd,
      List.length_nil, List.length_append] at hm ⊢
    omega
  · rw [drawCard_of_deck_ne rng g p pl h hd]
    have hm := handTotal_modifyFirst p
      (fun q => { q with hand := q.hand ++ [jsLast g.deck] }) g.players pl h
    have : 0 < g.deck.length := List.length_pos.mpr hd
    simp only [total, List.length_dropLast, List.length_singleton,
      List.length_append] at hm ⊢
    omega

/-! ## Turn order: auxiliary facts -/

theorem forcedDraws_frame (n : Nat) (rng : Rng) (g : CardGame) (id : String) :
    (forcedDraws n rng g id).1.currentPlayerIndex = g.currentPlayerIndex ∧
    (forcedDraws n rng g id).1.direction = g.direction ∧
    (forcedDraws n rng g id).1.players.length = g.players.length ∧
    (forcedDraws n rng g id).1.currentColor = g.currentColor ∧
    (forcedDraws n rng g id).1.winner = g.winner ∧
    (forcedDraws n rng g id).1.roomId = g.roomId ∧
    (forcedDraws n rng g id).1.gameStarted = g.gameStarted ∧
    jsLast (forcedDraws n rng g id).1.discardPile = jsLast g.discardPile := by
  induction n generalizing rng g with
  | zero => simp [forcedDraws]
  | succ k ih =>
    unfold forcedDraws
    have hf := drawCard_frame rng g id
    have := ih (drawCard rng g id).2.2 (drawCard rng g id).2.1
    simp only [] at this ⊢
    refine ⟨?_, ?_, ?_, ?_, ?_, ?_, ?_, ?_⟩
    · rw [this.1, hf.1]
    · rw [this.2.1, hf.2.1]
    · rw [this.2.2.1, hf.2.2.1]
    · rw [this.2.2.2.1, hf.2.2.2.1]
    · rw [this.2.2.2.2.1, hf.2.2.2.2.1]
    · rw [this.2.2.2.2.2.1, hf.2.2.2.2.2.1]
    · rw [this.2.2.2.2.2.2.1, hf.2.2.2.2.2.2.1]
    · rw [this.2.2.2.2.2.2.2, hf.2.2.2.2.2.2.2]

theorem nextPlayer_index (g : CardGame) (hN : 1 ≤ g.players.length)
    (hlo : 0 ≤ g.currentPlayerIndex) (hdir : g.direction = 1 ∨ g.direction = -1) :
    (nextPlayer g).currentPlayerIndex
      = (g.currentPlayerIndex + g.direction) % (g.players.length : Int) := by
  unfold nextPlayer
  simp only []
  have h0 : 0 ≤ g.currentPlayerIndex + g.direction + (g.players.length : Int) := by
    rcases hdir with h | h <;> rw [h] <;> omega
  rw [Int.tmod_eq_emod h0 (by omega)]
  exact Int.add_emod_self

theorem nextPlayer_index_bounds (g : CardGame) (hN : 1 ≤ g.players.length)
    (hlo : 0 ≤ g.currentPlayerIndex) (hdir : g.direction = 1 ∨ g.direction = -1) :
    0 ≤ (nextPlayer g).currentPlayerIndex ∧
    (nextPlayer g).currentPlayerIndex < (g.players.length : Int) := by
  rw [nextPlayer_index g hN hlo hdir]
  exact ⟨Int.emod_nonneg _ (by omega), Int.emod_lt_of_pos _ (by omega)⟩

theorem jsGet_of_bounds {α : Type} (l : List α) (i : Int) (h0 : 0 ≤ i)
    (h1 : i < (l.length : Int)) : ∃ x, jsGet l i = some x ∧ l[i.toNat]? = some x := by
  have hlt : i.toNat < l.length := by omega
  refine ⟨l[i.toNat], ?_, ?_⟩
  · unfold jsGet
    rw [if_neg (by omega)]
    exact List.getElem?_eq_getElem hlt
  · exact List.getElem?_eq_getElem hlt

/-! ## Playing: auxiliary facts -/

theorem canPlayCard_eq_true {g : CardGame} {s : Slot} {p : String}
    (h : canPlayCard g s p = some true) :
    ∃ cur card, jsGet g.players g.currentPlayerIndex = some cur ∧ cur.id = p ∧
      s = some card ∧
      (card.type = "wild" ∨ some card.color = g.currentColor ∨
        ∃ top, jsLast g.discardPile = some top ∧ card.value = top.value) := by
  unfold canPlayCard at h
  split at h
  · cases h
  · rename_i cur hcur
    split at h
    · cases h
    · rename_i hid
      have hid : cur.id = p := by simpa using hid
      split at h
      · cases h
      · rename_i card
        refine ⟨cur, card, hcur, hid, rfl, ?_⟩
        split at h
        · left; assumption
        · split at h
          · right; left; assumption
          · split at h
            · cases h
            · rename_i top htop
              right; right
              exact ⟨top, htop, by simpa using h⟩

theorem canPlayCard_of_playable {g : CardGame} {p : String} {cur : Player} {card : Card}
    (hcur : jsGet g.players g.currentPlayerIndex = some cur) (hid : cur.id = p)
    (hp : card.type = "wild" ∨ some card.color = g.currentColor ∨
        ∃ top, jsLast g.discardPile = some top ∧ card.value = top.value) :
    canPlayCard g (some card) p = some true := by
  unfold canPlayCard
  rw [hcur]
  simp only [hid, ne_eq, not_true_eq_false, if_false]
  by_cases h1 : card.type = "wild"
  · simp [h1]
  · by_cases h2 : some card.color = g.currentColor
    · simp [h1, h2]
    · rcases hp with hp | hp | ⟨top, htop, hv⟩
      · exact absurd hp h1
      · exact absurd hp h2
      · simp [h1, h2, htop, hv]

theorem jsSlot_eq_some {l : List Slot} {i : Int} {card : Card} (h : jsSlot l i = some card) :
    ∃ n : Nat, i = n ∧ n < l.length ∧ l[n]? = some (some card) := by
  unfold jsSlot at h
  cases hg : jsGet l i with
  | none => rw [hg] at h; cases h
  | some s =>
    rw [hg] at h
    obtain ⟨h0, h1, h2⟩ := jsGet_eq_some hg
    refine ⟨i.toNat, by omega, h1, ?_⟩
    rw [h2]
    have hs : s = some card := by simpa [Option.join] using h
    rw [hs]

theorem jsSlot_natCast (l : List Slot) (n : Nat) : jsSlot l (n : Int) = (l[n]?).join := by
  simp [jsSlot, jsGet_natCast]

theorem splice1_natCast (l : List Slot) (n : Nat) (hn : n < l.length) :
    splice1 l (n : Int) = ((l[n]?).join, l.eraseIdx n) := by
  have : spliceStart l.length (n : Int) = n := by
    unfold spliceStart
    rw [if_neg (by omega)]
    simp only [Int.toNat_ofNat]
    omega
  simp [splice1, this]

/-- The successful branch of `playCard`, for a card the acting player holds at index `n`
and may play. -/
theorem playCard_of_canPlay (rng : Rng) (g : CardGame) (p : String) (n : Nat)
    (c : Option String) (pl : Player) (card : Card)
    (hf : findPlayer g.players p = some pl) (hcard : pl.hand[n]? = some (some card))
    (hc : canPlayCard g (some card) p = some true) :
    playCard rng g p n c =
      if (pl.hand.eraseIdx n).length = 0 then
        some (successResult card (some p),
              { afterDiscard g p (pl.hand.eraseIdx n) card c with winner := some p }, rng)
      else
        match applyCardEffect rng (afterDiscard g p (pl.hand.eraseIdx n) card c) card with
        | none => none
        | some r => some (successResult card none, r.1, r.2) := by
  have hn : n < pl.hand.length := (List.getElem?_eq_some_iff.mp hcard).1
  have hs : jsSlot pl.hand (n : Int) = some card := by
    rw [jsSlot_natCast, hcard]; rfl
  unfold playCard
  simp only [hf, hs, hc, splice1_natCast pl.hand n hn, hcard, Option.join]
  rfl

/-- Every successful `playCard` call went through the successful branch. -/
theorem playCard_success_inv {rng : Rng} {g : CardGame} {p : String} {i : Int}
    {c : Option String} {r : PlayResult} {g' : CardGame} {rng' : Rng}
    (h : playCard rng g p i c = some (r, g', rng')) (hs : r.success = true) :
    ∃ (pl : Player) (n : Nat) (card : Card), i = n ∧ findPlayer g.players p = some pl ∧
      pl.hand[n]? = some (some card) ∧ canPlayCard g (some card) p = some true := by
  unfold playCard at h
  split at h
  · cases h
  · rename_i pl hf
    split at h
    · cases h
    · simp only [Option.some.injEq, Prod.mk.injEq] at h
      rw [← h.1] at hs
      cases hs
    · rename_i hc
      obtain ⟨cur, card, _, _, hslot, _⟩ := canPlayCard_eq_true hc
      obtain ⟨n, hin, _, hget⟩ := jsSlot_eq_some hslot
      refine ⟨pl, n, card, hin, hf, hget, ?_⟩
      rw [← hslot]; exact hc

theorem getElem_modifyFirst_of_ne (id : String) (f : Player → Player) (ps : List Player)
    (k : Nat) (q : Player) (hq : ps[k]? = some q) (hne : q.id ≠ id) :
    (modifyFirst id f ps)[k]? = some q := by
  induction ps generalizing k with
  | nil => simp at hq
  | cons a as ih =>
    unfold modifyFirst
    cases k with
    | zero =>
      simp only [List.getElem?_cons_zero, Option.some.injEq] at hq
      subst hq
      simp [hne]
    | succ j =>
      simp only [List.getElem?_cons_succ] at hq
      split
      · simpa using hq
      · simpa using ih j hq

set_option maxRecDepth 100000 in
theorem openingGame_eq : openingGame = some openingState := by decide

theorem map_eq_of_zip {α β : Type} (f : α → β) (l1 l2 : List α)
    (hlen : l1.length = l2.length)
    (h : ∀ pr ∈ List.zip l1 l2, f pr.1 = f pr.2) : l1.map f = l2.map f := by
  induction l1 generalizing l2 with
  | nil =>
    cases l2 with
    | nil => rfl
    | cons b bs => simp at hlen
  | cons a as ih =>
    cases l2 with
    | nil => simp at hlen
    | cons b bs =>
      simp only [List.length_cons, Nat.add_right_cancel_iff] at hlen
      simp only [List.zip_cons_cons, List.mem_cons, forall_eq_or_imp] at h
      simp only [List.map_cons, List.cons.injEq]
      exact ⟨h.1, ih bs hlen h.2⟩

theorem nextPlayer_frame (g : CardGame) :
    (nextPlayer g).players = g.players ∧ (nextPlayer g).deck = g.deck ∧
    (nextPlayer g).discardPile = g.discardPile ∧ (nextPlayer g).direction = g.direction ∧
    (nextPlayer g).currentColor = g.currentColor ∧ (nextPlayer g).winner = g.winner :=
  ⟨rfl, rfl, rfl, rfl, rfl, rfl⟩

theorem two_steps (a d : Int) (n : Int) : ((a + d) % n + d) % n = (a + 2 * d) % n := by
  rw [Int.emod_add_emod]
  congr 1
  ring

/-- Where `applyCardEffect` leaves the turn pointer and the direction. -/
theorem applyCardEffect_turn (rng : Rng) (g : CardGame) (card : Card) (r : CardGame × Rng)
    (h : applyCardEffect rng g card = some r) (hN : 1 ≤ g.players.length)
    (hlo : 0 ≤ g.currentPlayerIndex) (hdir : g.direction = 1 ∨ g.direction = -1) :
    r.1.players.length = g.players.length ∧
    r.1.direction = (if card.value = "reverse" then -g.direction else g.direction) ∧
    r.1.currentPlayerIndex
      = (g.currentPlayerIndex + turnSteps card.value g.players.length * r.1.direction)
          % (g.players.length : Int) := by
  have hnp := nextPlayer_index g hN hlo hdir
  have hnb := nextPlayer_index_bounds g hN hlo hdir
  simp only [applyCardEffect] at h
  by_cases hskip : card.value = "skip"
  · simp only [if_pos hskip, Option.some.injEq] at h
    subst h
    have h2 := nextPlayer_index (nextPlayer g) hN hnb.1 hdir
    simp only [(nextPlayer_frame g).1, (nextPlayer_frame g).2.2.2.1] at h2
    refine ⟨rfl, by simp [hskip, nextPlayer], ?_⟩
    rw [h2, hnp, two_steps]
    simp [turnSteps, hskip, nextPlayer]
  · by_cases hrev : card.value = "reverse"
    · simp only [if_neg hskip, if_pos hrev, Option.some.injEq] at h
      subst h
      have hdir' : g.direction * -1 = 1 ∨ g.direction * -1 = -1 := by
        rcases hdir with h | h <;> rw [h] <;> simp
      by_cases h2p : g.players.length = 2
      · simp only [h2p, if_true]
        have ha := nextPlayer_index { g with direction := g.direction * -1 } hN hlo hdir'
        have hb := nextPlayer_index_bounds { g with direction := g.direction * -1 } hN hlo hdir'
        have hc := nextPlayer_index (nextPlayer { g with direction := g.direction * -1 })
          hN hb.1 hdir'
        simp only [(nextPlayer_frame _).1, (nextPlayer_frame _).2.2.2.1] at hc
        refine ⟨by simp [nextPlayer, h2p], by simp [hrev, nextPlayer], ?_⟩
        rw [hc, ha, two_steps]
        simp [turnSteps, hrev, nextPlayer, h2p]
      · simp only [h2p, if_false]
        have ha := nextPlayer_index { g with direction := g.direction * -1 } hN hlo hdir'
        refine ⟨by simp [nextPlayer], by simp [hrev, nextPlayer], ?_⟩
        rw [ha]
        simp [turnSteps, hrev, nextPlayer, h2p]
    · have hdraw : ∀ n : Nat, (card.value = "draw2" ∨ card.value = "wild-draw4") →
          ∀ x, drawEffect n rng g = some x →
          (nextPlayer x.1).players.length = g.players.length ∧
          (nextPlayer x.1).direction = g.direction ∧
          (nextPlayer x.1).currentPlayerIndex
            = (g.currentPlayerIndex + turnSteps card.value g.players.length *
                (nextPlayer x.1).direction) % (g.players.length : Int) := by
        intro n hv x hx
        simp only [drawEffect] at hx
        split at hx
        · cases hx
        · rename_i victim _
          simp only [Option.some.injEq] at hx
          subst hx
          have hf := forcedDraws_frame n rng (nextPlayer g) victim.id
          have hN' : 1 ≤ (forcedDraws n rng (nextPlayer g) victim.id).1.players.length := by
            rw [hf.2.2.1]; exact hN
          have hlo' : 0 ≤ (forcedDraws n rng (nextPlayer g) victim.id).1.currentPlayerIndex := by
            rw [hf.1]; exact hnb.1
          have hdir' : (forcedDraws n rng (nextPlayer g) victim.id).1.direction = 1 ∨
              (forcedDraws n rng (nextPlayer g) victim.id).1.direction = -1 := by
            rw [hf.2.1]; exact hdir
          have hc := nextPlayer_index _ hN' hlo' hdir'
          rw [hf.1, hf.2.1, hf.2.2.1] at hc
          simp only [(nextPlayer_frame g).1, (nextPlayer_frame g).2.2.2.1] at hc
          have hd : (nextPlayer (forcedDraws n rng (nextPlayer g) victim.id).1).direction
              = g.direction := by
            rw [(nextPlayer_frame _).2.2.2.1, hf.2.1]; rfl
          refine ⟨?_, hd, ?_⟩
          · rw [(nextPlayer_frame _).1, hf.2.2.1]; rfl
          · rw [hc, hnp, two_steps, hd]
            have : turnSteps card.value g.players.length = 2 := by
              rcases hv with hv | hv <;> simp [turnSteps, hv]
            rw [this]
      by_cases hd2 : card.value = "draw2"
      · simp only [if_neg hskip, if_neg hrev, if_pos hd2] at h
        cases hx : drawEffect 2 rng g with
        | none => rw [hx] at h; cases h
        | some x =>
          rw [hx] at h
          simp only [Option.some.injEq] at h
          subst h
          have := hdraw 2 (Or.inl hd2) x hx
          simpa [hd2] using this
      · by_cases hd4 : card.value = "wild-draw4"
        · simp only [if_neg hskip, if_neg hrev, if_neg hd2, if_pos hd4] at h
          cases hx : drawEffect 4 rng g with
          | none => rw [hx] at h; cases h
          | some x =>
            rw [hx] at h
            simp only [Option.some.injEq] at h
            subst h
            have := hdraw 4 (Or.inr hd4) x hx
            simpa [hd4] using this
        · simp only [if_neg hskip, if_neg hrev, if_neg hd2, if_neg hd4, Option.some.injEq] at h
          subst h
          refine ⟨rfl, by simp [hrev, nextPlayer], ?_⟩
          rw [hnp]
          simp [turnSteps, hskip, hrev, hd2, hd4, nextPlayer]

theorem modifyFirst_modifyFirst (id : String) (f h : Player → Player)
    (hid : ∀ q, (h q).id = q.id) (ps : List Player) :
    modifyFirst id f (modifyFirst id h ps) = modifyFirst id (fun q => f (h q)) ps := by
  induction ps with
  | nil => rfl
  | cons a as ih =>
    by_cases ha : a.id = id
    · have : (h a).id = id := by rw [hid]; exact ha
      simp [modifyFirst, ha, this]
    · simp [modifyFirst, ha, ih]

theorem findPlayer_modifyFirst (id : String) (h : Player → Player)
    (hid : ∀ q, (h q).id = q.id) (ps : List Player) :
    findPlayer (modifyFirst id h ps) id = (findPlayer ps id).map h := by
  induction ps with
  | nil => rfl
  | cons a as ih =>
    by_cases ha : a.id = id
    · have : (h a).id = id := by rw [hid]; exact ha
      simp [modifyFirst, findPlayer, ha, this]
    · unfold findPlayer at ih
      simp [modifyFirst, findPlayer, ha, ih]

theorem map_id_modifyFirst (id : String) (h : Player → Player)
    (hid : ∀ q, (h q).id = q.id) (ps : List Player) :
    (modifyFirst id h ps).map (fun q => q.id) = ps.map (fun q => q.id) := by
  induction ps with
  | nil => rfl
  | cons a as ih =>
    by_cases ha : a.id = id
    · simp [modifyFirst, ha, hid]
    · simp [modifyFirst, ha, ih]

/-- With pairwise distinct ids, the player `find` returns for the id of seat `b` is the
player at seat `b`, and an update through `find` is an update of that seat. -/
theorem modifyFirst_eq_set (ps : List Player) (hnd : (ps.map (fun q => q.id)).Nodup)
    (b : Nat) (q : Player) (hb : ps[b]? = some q) (f : Player → Player) :
    findPlayer ps q.id = some q ∧ modifyFirst q.id f ps = ps.set b (f q) := by
  induction ps generalizing b with
  | nil => simp at hb
  | cons a as ih =>
    cases b with
    | zero =>
      simp only [List.getElem?_cons_zero, Option.some.injEq] at hb
      subst hb
      simp [findPlayer, modifyFirst]
    | succ j =>
      simp only [List.getElem?_cons_succ] at hb
      simp only [List.map_cons, List.nodup_cons] at hnd
      have hmem : q.id ∈ as.map (fun q => q.id) := by
        obtain ⟨hj, hq⟩ := List.getElem?_eq_some_iff.mp hb
        exact List.mem_map.mpr ⟨q, hq ▸ List.getElem_mem hj, rfl⟩
      have hne : ¬ a.id = q.id := fun he => hnd.1 (he ▸ hmem)
      obtain ⟨i1, i2⟩ := ih hnd.2 j hb
      unfold findPlayer at i1
      simp [findPlayer, modifyFirst, hne, i1, i2]

theorem modifyFirst_of_fixed (id : String) (f : Player → Player) (hfix : ∀ q, f q = q)
    (ps : List Player) : modifyFirst id f ps = ps := by
  induction ps with
  | nil => rfl
  | cons a as ih => by_cases ha : a.id = id <;> simp [modifyFirst, ha, ih, hfix]

theorem jsLast_cons_reverse (deck : List Slot) (hd : deck ≠ []) (n : Nat) :
    deck.reverse.take (n + 1) = jsLast deck :: deck.dropLast.reverse.take n := by
  obtain ⟨init, x, rfl⟩ : ∃ init x, deck = init ++ [x] :=
    ⟨deck.dropLast, deck.getLast hd, (List.dropLast_append_getLast hd).symm⟩
  simp [jsLast]

/-- `n` draws for one player from a deck of at least `n` cards: the top `n` cards go to the
end of that hand, top card first; nothing is reshuffled. -/
theorem forcedDraws_of_deck (n : Nat) (rng : Rng) (g : CardGame) (id : String) (pl : Player)
    (hf : findPlayer g.players id = some pl) (hn : n ≤ g.deck.length) :
    forcedDraws n rng g id =
      ({ g with deck := g.deck.take (g.deck.length - n),
                players := modifyFirst id
                  (fun q => { q with hand := q.hand ++ g.deck.reverse.take n }) g.players },
       rng) := by
  induction n generalizing g pl with
  | zero =>
    have : modifyFirst id (fun q => { q with hand := q.hand ++ [] }) g.players = g.players :=
      modifyFirst_of_fixed id _ (fun q => by simp) g.players
    simp only [forcedDraws, Nat.sub_zero, List.take_length, List.take_zero, this]
  | succ k ih =>
    have hd : g.deck ≠ [] := by
      intro h0; rw [h0] at hn; simp at hn
    unfold forcedDraws
    rw [drawCard_of_deck_ne rng g id pl hf hd]
    simp only []
    have hf1 : findPlayer (modifyFirst id
        (fun q => { q with hand := q.hand ++ [jsLast g.deck] }) g.players) id
        = some { pl with hand := pl.hand ++ [jsLast g.deck] } := by
      rw [findPlayer_modifyFirst id (fun q => { q with hand := q.hand ++ [jsLast g.deck] })
        (fun _ => rfl) g.players, hf]
      rfl
    rw [ih _ _ hf1 (by simp only [List.length_dropLast]; omega)]
    simp only [List.length_dropLast]
    rw [modifyFirst_modifyFirst id
      (fun q => { q with hand := q.hand ++ g.deck.dropLast.reverse.take k })
      (fun q => { q with hand := q.hand ++ [jsLast g.deck] }) (fun _ => rfl) g.players,
      jsLast_cons_reverse g.deck hd k]
    have hdeck : g.deck.dropLast.take (g.deck.length - 1 - k)
        = g.deck.take (g.deck.length - (k + 1)) := by
      rw [List.dropLast_eq_take, List.take_take]
      congr 1
      omega
    rw [hdeck]
    simp only [List.append_assoc, List.singleton_append]

/-- What `applyCardEffect` does to the cards: it never throws on a valid turn pointer, and
hands, deck, discard pile and random stream come out as `forcedCount card.value` draws
for the next player in direction leave them. -/
theorem applyCardEffect_cards (rng : Rng) (g : CardGame) (card : Card)
    (hN : 1 ≤ g.players.length) (hlo : 0 ≤ g.currentPlayerIndex)
    (hdir : g.direction = 1 ∨ g.direction = -1) :
    ∃ victim x,
      jsGet g.players ((g.currentPlayerIndex + g.direction) % (g.players.length : Int))
        = some victim ∧
      applyCardEffect rng g card = some x ∧
      x.1.players
        = (forcedDraws (forcedCount card.value) rng (nextPlayer g) victim.id).1.players ∧
      x.1.deck = (forcedDraws (forcedCount card.value) rng (nextPlayer g) victim.id).1.deck ∧
      x.1.discardPile
        = (forcedDraws (forcedCount card.value) rng (nextPlayer g) victim.id).1.discardPile ∧
      x.2 = (forcedDraws (forcedCount card.value) rng (nextPlayer g) victim.id).2 ∧
      x.1.roomId = g.roomId ∧ x.1.currentColor = g.currentColor ∧ x.1.winner = g.winner ∧
      x.1.gameStarted = g.gameStarted := by
  have hnp := nextPlayer_index g hN hlo hdir
  have hnb := nextPlayer_index_bounds g hN hlo hdir
  obtain ⟨victim, hv, _⟩ := jsGet_of_bounds g.players (nextPlayer g).currentPlayerIndex
    hnb.1 hnb.2
  have hv' : jsGet (nextPlayer g).players (nextPlayer g).currentPlayerIndex = some victim := hv
  rw [hnp] at hv
  have hdraw : ∀ n : Nat, drawEffect n rng g
      = some (forcedDraws n rng (nextPlayer g) victim.id) := by
    intro n
    simp only [drawEffect, hv']
  refine ⟨victim, ?_⟩
  simp only [applyCardEffect]
  by_cases hskip : card.value = "skip"
  · refine ⟨_, hv, by rw [if_pos hskip], ?_⟩
    have hfc : forcedCount card.value = 0 := by simp [forcedCount, hskip]
    rw [hfc]
    exact ⟨rfl, rfl, rfl, rfl, rfl, rfl, rfl, rfl⟩
  · by_cases hrev : card.value = "reverse"
    · refine ⟨_, hv, by rw [if_neg hskip, if_pos hrev], ?_⟩
      have hfc : forcedCount card.value = 0 := by simp [forcedCount, hrev]
      rw [hfc]
      by_cases h2 : g.players.length = 2
      · simp only [h2, if_true]
        exact ⟨rfl, rfl, rfl, rfl, rfl, rfl, rfl, rfl⟩
      · simp only [h2, if_false]
        exact ⟨rfl, rfl, rfl, rfl, rfl, rfl, rfl, rfl⟩
    · by_cases hd2 : card.value = "draw2"
      · refine ⟨_, hv, by rw [if_neg hskip, if_neg hrev, if_pos hd2, hdraw 2], ?_⟩
        have hf := forcedDraws_frame 2 rng (nextPlayer g) victim.id
        have hfc : forcedCount card.value = 2 := by simp [forcedCount, hd2]
        rw [hfc]
        refine ⟨rfl, rfl, rfl, rfl, ?_, ?_, ?_, ?_⟩
        · exact hf.2.2.2.2.2.1
        · exact hf.2.2.2.1
        · exact hf.2.2.2.2.1
        · exact hf.2.2.2.2.2.2.1
      · by_cases hd4 : card.value = "wild-draw4"
        · refine ⟨_, hv,
            by rw [if_neg hskip, if_neg hrev, if_neg hd2, if_pos hd4, hdraw 4], ?_⟩
          have hf := forcedDraws_frame 4 rng (nextPlayer g) victim.id
          have hfc : forcedCount card.value = 4 := by simp [forcedCount, hd4]
          rw [hfc]
          refine ⟨rfl, rfl, rfl, rfl, ?_, ?_, ?_, ?_⟩
          · exact hf.2.2.2.2.2.1
          · exact hf.2.2.2.1
          · exact hf.2.2.2.2.1
          · exact hf.2.2.2.2.2.2.1
        · refine ⟨_, hv, by rw [if_neg hskip, if_neg hrev, if_neg hd2, if_neg hd4], ?_⟩
          have hfc : forcedCount card.value = 0 := by simp [forcedCount, hd2, hd4]
          rw [hfc]
          exact ⟨rfl, rfl, rfl, rfl, rfl, rfl, rfl, rfl⟩

theorem next_seat_ne (a d n : Int) (h0 : 0 ≤ a) (h1 : a < n) (hn : 2 ≤ n)
    (hd : d = 1 ∨ d = -1) : (a + d) % n ≠ a := by
  rcases hd with hd | hd <;> subst hd
  · by_cases hw : a + 1 < n
    · rw [Int.emod_eq_of_lt (by omega) hw]; omega
    · have : a + 1 = n := by omega
      rw [this, Int.emod_self]; omega
  · by_cases hw : 1 ≤ a
    · rw [Int.emod_eq_of_lt (by omega) (by omega)]; omega
    · have ha : a = 0 := by omega
      subst ha
      have : (0 + -1 : Int) % n = n - 1 := by
        rw [← Int.add_emod_self, Int.emod_eq_of_lt (by omega) (by omega)]; omega
      rw [this]; omega

theorem jsGet_set_ne {α : Type} (l : List α) (a : Nat) (x : α) (k : Int)
    (hk : k ≠ (a : Int)) : jsGet (l.set a x) k = jsGet l k := by
  unfold jsGet
  split
  · rfl
  · rw [List.getElem?_set_ne (by omega)]

theorem jsGet_set_self {α : Type} (l : List α) (a : Nat) (x : α) (ha : a < l.length) :
    jsGet (l.set a x) (a : Int) = some x := by
  rw [jsGet_natCast, List.getElem?_set_self (by simpa using ha)]

/-- A successful play that leaves cards in the acting hand, in a game with pairwise
distinct ids: the play removes the card at seat `currentPlayerIndex`, and the effect is
`forcedCount card.value` draws for the player `B` seated next in direction. -/
theorem playCard_nonwinning (rng : Rng) (g : CardGame) (p : String) (m : Nat)
    (c : Option String) (A : Player) (card : Card)
    (hnd : (g.players.map (fun q => q.id)).Nodup) (hN : 2 ≤ g.players.length)
    (hdir : g.direction = 1 ∨ g.direction = -1)
    (hA : jsGet g.players g.currentPlayerIndex = some A) (hid : A.id = p)
    (hcard : A.hand[m]? = some (some card))
    (hc : canPlayCard g (some card) p = some true)
    (hrest : (A.hand.eraseIdx m).length ≠ 0) :
    ∃ B g',
      jsGet g.players ((g.currentPlayerIndex + g.direction) % (g.players.length : Int))
        = some B ∧
      (g.currentPlayerIndex + g.direction) % (g.players.length : Int)
        ≠ g.currentPlayerIndex ∧
      0 ≤ (g.currentPlayerIndex + g.direction) % (g.players.length : Int) ∧
      playCard rng g p m c = some (successResult card none, g',
        (forcedDraws (forcedCount card.value) rng
          (nextPlayer (afterDiscard g p (A.hand.eraseIdx m) card c)) B.id).2) ∧
      g'.players = (forcedDraws (forcedCount card.value) rng
          (nextPlayer (afterDiscard g p (A.hand.eraseIdx m) card c)) B.id).1.players ∧
      g'.deck = (forcedDraws (forcedCount card.value) rng
          (nextPlayer (afterDiscard g p (A.hand.eraseIdx m) card c)) B.id).1.deck ∧
      g'.discardPile = (forcedDraws (forcedCount card.value) rng
          (nextPlayer (afterDiscard g p (A.hand.eraseIdx m) card c)) B.id).1.discardPile ∧
      (afterDiscard g p (A.hand.eraseIdx m) card c).players
        = g.players.set g.currentPlayerIndex.toNat { A with hand := A.hand.eraseIdx m } ∧
      findPlayer (afterDiscard g p (A.hand.eraseIdx m) card c).players B.id = some B ∧
      (∀ f : Player → Player,
        modifyFirst B.id f (afterDiscard g p (A.hand.eraseIdx m) card c).players
          = (afterDiscard g p (A.hand.eraseIdx m) card c).players.set
              ((g.currentPlayerIndex + g.direction) % (g.players.length : Int)).toNat (f B)) ∧
      g'.currentColor
        = some (if card.type = "wild" then colorOrDefault c else card.color) ∧
      g'.winner = g.winner ∧
      g'.direction = (if card.value = "reverse" then -g.direction else g.direction) ∧
      g'.currentPlayerIndex
        = (g.currentPlayerIndex + turnSteps card.value g.players.length * g'.direction)
            % (g.players.length : Int) := by
  obtain ⟨hlo, hhi, hget⟩ := jsGet_eq_some hA
  have hhi' : g.currentPlayerIndex < (g.players.length : Int) := by omega
  subst hid
  obtain ⟨hfA, hsetA⟩ := modifyFirst_eq_set g.players hnd _ A hget
    (fun q => { q with hand := A.hand.eraseIdx m })
  have hg1p : (afterDiscard g A.id (A.hand.eraseIdx m) card c).players
      = g.players.set g.currentPlayerIndex.toNat { A with hand := A.hand.eraseIdx m } := hsetA
  have hlen1 : (afterDiscard g A.id (A.hand.eraseIdx m) card c).players.length
      = g.players.length := by rw [hg1p, List.length_set]
  have hN1 : 1 ≤ (afterDiscard g A.id (A.hand.eraseIdx m) card c).players.length := by
    rw [hlen1]; omega
  obtain ⟨B, x, hB, hx, hxp, hxd, hxs, hxr, _, hxc, hxw, _⟩ :=
    applyCardEffect_cards rng (afterDiscard g A.id (A.hand.eraseIdx m) card c) card hN1 hlo hdir
  have ht := applyCardEffect_turn rng (afterDiscard g A.id (A.hand.eraseIdx m) card c) card x
    hx hN1 hlo hdir
  rw [hlen1] at hB ht
  have hcd : (afterDiscard g A.id (A.hand.eraseIdx m) card c).currentPlayerIndex
      = g.currentPlayerIndex := rfl
  have hdd : (afterDiscard g A.id (A.hand.eraseIdx m) card c).direction = g.direction := rfl
  rw [hcd, hdd] at hB ht
  have hne := next_seat_ne g.currentPlayerIndex g.direction g.players.length hlo hhi'
    (by omega) hdir
  have hb0 : 0 ≤ (g.currentPlayerIndex + g.direction) % (g.players.length : Int) :=
    Int.emod_nonneg _ (by omega)
  have hBg : jsGet g.players
      ((g.currentPlayerIndex + g.direction) % (g.players.length : Int)) = some B := by
    rw [hg1p, jsGet_set_ne] at hB
    · exact hB
    · rw [Int.toNat_of_nonneg hlo]; exact hne
  obtain ⟨_, _, hgetB1⟩ := jsGet_eq_some hB
  have hnd1 : ((afterDiscard g A.id (A.hand.eraseIdx m) card c).players.map
      (fun q => q.id)).Nodup := by
    have : (afterDiscard g A.id (A.hand.eraseIdx m) card c).players.map (fun q => q.id)
        = g.players.map (fun q => q.id) :=
      map_id_modifyFirst A.id (fun q => { q with hand := A.hand.eraseIdx m })
        (fun _ => rfl) g.players
    rw [this]; exact hnd
  refine ⟨B, x.1, hBg, hne, hb0, ?_, hxp, hxd, hxs, hg1p, ?_, ?_, hxc, hxw, ht.2.1, ht.2.2⟩
  · rw [playCard_of_canPlay rng g A.id m c A card hfA hcard hc, if_neg hrest, hx, ← hxr]
  · exact (modifyFirst_eq_set _ hnd1 _ B hgetB1 id).1
  · intro f
    exact (modifyFirst_eq_set _ hnd1 _ B hgetB1 f).2

/-! ## Dealing: auxiliary facts -/

theorem dealLoop_length (n : Nat) (hand deck : List Slot) :
    (dealLoop n hand deck).1.length = hand.length + n ∧
    (dealLoop n hand deck).2.length = deck.length - n := by
  induction n generalizing hand deck with
  | zero => simp [dealLoop]
  | succ k ih =>
    unfold dealLoop
    obtain ⟨h1, h2⟩ := ih (hand ++ [jsLast deck]) deck.dropLast
    rw [h1, h2]
    simp only [List.length_append, List.length_singleton, List.length_dropLast]
    omega

theorem dealHands_length (ps : List Player) (deck : List Slot) :
    handTotal (dealHands ps deck).1 = handTotal ps + 7 * ps.length ∧
    (dealHands ps deck).2.length = deck.length - 7 * ps.length := by
  induction ps generalizing deck with
  | nil => simp [dealHands, handTotal]
  | cons q qs ih =>
    unfold dealHands
    obtain ⟨h1, h2⟩ := dealLoop_length 7 q.hand deck
    obtain ⟨i1, i2⟩ := ih (dealLoop 7 q.hand deck).2
    have hcons : ∀ (a : Player) (l : List Player),
        handTotal (a :: l) = a.hand.length + handTotal l := fun _ _ => rfl
    simp only [hcons, List.length_cons]
    rw [i1, i2, h1, h2]
    constructor <;> omega

theorem seedLoop_length (l : List Slot) (c : Card) (rest : List Slot)
    (h : seedLoop l = some (c, rest)) :
    l.length = (l.takeWhile isWildSlot).length + 1 + rest.length ∧ c.type ≠ "wild" := by
  induction l with
  | nil => simp [seedLoop] at h
  | cons s t ih =>
    cases s with
    | none => simp [seedLoop] at h
    | some d =>
      unfold seedLoop at h
      by_cases hw : d.type = "wild"
      · rw [if_pos hw] at h
        obtain ⟨i1, i2⟩ := ih h
        refine ⟨?_, i2⟩
        simp only [List.takeWhile, isWildSlot, hw, decide_True, List.length_cons]
        omega
      · rw [if_neg hw] at h
        simp only [Option.some.injEq, Prod.mk.injEq] at h
        obtain ⟨h1, h2⟩ := h
        subst h1 h2
        refine ⟨?_, hw⟩
        simp only [List.takeWhile, isWildSlot, hw, decide_False, List.length_cons,
          List.length_nil]
        omega

theorem handTotal_mkPlayers (idx : Nat) (roster : List RosterEntry) :
    handTotal (mkPlayers idx roster) = 0 ∧ (mkPlayers idx roster).length = roster.length := by
  induction roster generalizing idx with
  | nil => simp [mkPlayers, handTotal]
  | cons e es ih =>
    obtain ⟨h1, h2⟩ := ih (idx + 1)
    simp only [handTotal] at h1
    simp [mkPlayers, handTotal, h1, h2]

/-- The count right after `dealCards` on a game fresh from the constructor: 108 minus the
wild cards set aside. -/
theorem total_after_deal (rng : Rng) (roomId : String) (roster : List RosterEntry)
    (g1 : CardGame) (hN : roster.length ≤ 4)
    (hdeal : dealCards (CardGame.create rng roomId roster).1 = some g1) :
    total g1 + setAside (CardGame.create rng roomId roster).1 = 108 := by
  unfold dealCards at hdeal
  simp only [] at hdeal
  split at hdeal
  · cases hdeal
  · rename_i firstCard rest hseed
    simp only [Option.some.injEq] at hdeal
    subst hdeal
    obtain ⟨hs, _⟩ := seedLoop_length _ _ _ hseed
    obtain ⟨hh, hd⟩ := dealHands_length (CardGame.create rng roomId roster).1.players
      (CardGame.create rng roomId roster).1.deck
    have hdeck : (CardGame.create rng roomId roster).1.deck.length = 108 := by
      simp only [CardGame.create, initializeDeck, List.nil_append]
      rw [length_shuffleDeck, List.length_map]
      rfl
    obtain ⟨hp0, hpl⟩ := handTotal_mkPlayers 0 roster
    have hplayers : (CardGame.create rng roomId roster).1.players = mkPlayers 0 roster := rfl
    have hdisc : (CardGame.create rng roomId roster).1.discardPile = [] := rfl
    rw [hplayers, hp0, hpl] at hh
    rw [hplayers, hpl, hdeck] at hd
    rw [hplayers, List.length_reverse, hd] at hs
    simp only [total, setAside, List.length_reverse, hdisc, List.nil_append,
      List.length_singleton, hplayers, hh]
    omega

/-! ## Card count: auxiliary facts -/

theorem forcedDraws_total (n : Nat) (rng : Rng) (g : CardGame) (id : String)
    (hdisc : 1 ≤ g.discardPile.length)
    (hst : n + 1 ≤ g.deck.length + g.discardPile.length) :
    total (forcedDraws n rng g id).1 = total g := by
  induction n generalizing rng g with
  | zero => rfl
  | succ k ih =>
    unfold forcedDraws
    simp only []
    cases hf : findPlayer g.players id with
    | none =>
      rw [drawCard_of_find_none rng g id hf]
      exact ih rng g hdisc (by omega)
    | some pl =>
      have hs : g.deck ≠ [] ∨ 2 ≤ g.discardPile.length := by
        by_cases hd : g.deck = []
        · right
          rw [hd] at hst
          simp only [List.length_nil] at hst
          omega
        · left; exact hd
      obtain ⟨h1, h2, h3⟩ := drawCard_total rng g id pl hf hs
      rw [ih _ _ (h3 hdisc) (by omega), h1]

theorem total_nextPlayer (g : CardGame) : total (nextPlayer g) = total g := rfl

theorem applyCardEffect_total (rng : Rng) (g : CardGame) (card : Card) (x : CardGame × Rng)
    (h : applyCardEffect rng g card = some x) (hdisc : 1 ≤ g.discardPile.length)
    (hst : forcedCount card.value + 1 ≤ g.deck.length + g.discardPile.length) :
    total x.1 = total g := by
  have hdraw : ∀ n : Nat, forcedCount card.value = n → ∀ y, drawEffect n rng g = some y →
      total (nextPlayer y.1) = total g := by
    intro n hn y hy
    simp only [drawEffect] at hy
    split at hy
    · cases hy
    · rename_i victim _
      simp only [Option.some.injEq] at hy
      subst hy
      rw [total_nextPlayer, forcedDraws_total n rng (nextPlayer g) victim.id hdisc
        (by rw [← hn]; exact hst)]
      rfl
  simp only [applyCardEffect] at h
  by_cases hskip : card.value = "skip"
  · simp only [if_pos hskip, Option.some.injEq] at h
    subst h; rfl
  · by_cases hrev : card.value = "reverse"
    · simp only [if_neg hskip, if_pos hrev, Option.some.injEq] at h
      subst h
      by_cases h2 : g.players.length = 2
      · simp only [h2, if_true]; rfl
      · simp only [h2, if_false]; rfl
    · by_cases hd2 : card.value = "draw2"
      · simp only [if_neg hskip, if_neg hrev, if_pos hd2] at h
        cases hy : drawEffect 2 rng g with
        | none => rw [hy] at h; cases h
        | some y =>
          rw [hy] at h
          simp only [Option.some.injEq] at h
          subst h
          exact hdraw 2 (by simp [forcedCount, hd2]) y hy
      · by_cases hd4 : card.value = "wild-draw4"
        · simp only [if_neg hskip, if_neg hrev, if_neg hd2, if_pos hd4] at h
          cases hy : drawEffect 4 rng g with
          | none => rw [hy] at h; cases h
          | some y =>
            rw [hy] at h
            simp only [Option.some.injEq] at h
            subst h
            exact hdraw 4 (by simp [forcedCount, hd4]) y hy
        · simp only [if_neg hskip, if_neg hrev, if_neg hd2, if_neg hd4,
            Option.some.injEq] at h
          subst h; rfl

theorem total_afterDiscard (g : CardGame) (p : String) (pl : Player) (hand : List Slot)
    (card : Card) (c : Option String) (hf : findPlayer g.players p = some pl) :
    total (afterDiscard g p hand card c) + pl.hand.length = total g + hand.length + 1 := by
  have hm := handTotal_modifyFirst p (fun q => { q with hand := hand }) g.players pl hf
  simp only [total, afterDiscard, List.length_append, List.length_singleton] at hm ⊢
  omega

/-- A play that returns without success returns the state it was given. -/
theorem playCard_failure_inv {rng : Rng} {g : CardGame} {p : String} {i : Int}
    {c : Option String} {out : PlayResult × CardGame × Rng}
    (h : playCard rng g p i c = some out) (hs : ¬ out.1.success = true) :
    out = (invalidCard, g, rng) := by
  unfold playCard at h
  split at h
  · cases h
  · split at h
    · cases h
    · simp only [Option.some.injEq] at h
      rw [← h]; rfl
    · simp only [] at h
      split at h
      · cases h
      · split at h
        · simp only [Option.some.injEq] at h
          rw [← h] at hs
          exact absurd rfl hs
        · split at h
          · cases h
          · simp only [Option.some.injEq] at h
            rw [← h] at hs
            exact absurd rfl hs

/-- A play in which no forced draw starves keeps the card count. -/
theorem playCard_total (rng : Rng) (g : CardGame) (p : String) (i : Int)
    (c : Option String) (out : PlayResult × CardGame × Rng)
    (h : playCard rng g p i c = some out)
    (hguard : ∀ card, out.1.card = some card → out.1.winner = none →
      forcedCount card.value ≤ g.deck.length + g.discardPile.length) :
    total out.2.1 = total g := by
  by_cases hs : out.1.success = true
  · obtain ⟨pl, n, card, hin, hf, hcard, hc⟩ := playCard_success_inv h hs
    subst hin
    have hn : n < pl.hand.length := (List.getElem?_eq_some_iff.mp hcard).1
    have ht := total_afterDiscard g p pl (pl.hand.eraseIdx n) card c hf
    rw [List.length_eraseIdx, if_pos hn] at ht
    rw [playCard_of_canPlay rng g p n c pl card hf hcard hc] at h
    split at h
    · simp only [Option.some.injEq] at h
      subst h
      have : total { afterDiscard g p (pl.hand.eraseIdx n) card c with winner := some p }
          = total (afterDiscard g p (pl.hand.eraseIdx n) card c) := rfl
      simp only [this]
      omega
    · cases he : applyCardEffect rng (afterDiscard g p (pl.hand.eraseIdx n) card c) card with
      | none => rw [he] at h; cases h
      | some x =>
        rw [he] at h
        simp only [Option.some.injEq] at h
        subst h
        have hg := hguard card rfl rfl
        have := applyCardEffect_total rng _ card x he
          (by simp [afterDiscard])
          (by simp only [afterDiscard, List.length_append, List.length_singleton]; omega)
        simp only [this]
        omega
  · rw [playCard_failure_inv h hs]

theorem total_run (g0 g : CardGame) (h : Run g0 g) : total g = total g0 := by
  induction h with
  | start => rfl
  | play rng g p i c out _ hplay hguard ih =>
    rw [playCard_total rng g p i c out hplay hguard, ih]
  | draw rng g p _ hs ih =>
    cases hf : findPlayer g.players p with
    | none => rw [drawCard_of_find_none rng g p hf]; exact ih
    | some pl => rw [(drawCard_total rng g p pl hf hs).1, ih]

theorem drawCard_players (rng : Rng) (g : CardGame) (id : String) :
    ∃ extra, (drawCard rng g id).2.1.players
      = modifyFirst id (fun q => { q with hand := q.hand ++ extra }) g.players := by
  cases hf : findPlayer g.players id with
  | none =>
    refine ⟨[], ?_⟩
    rw [drawCard_of_find_none rng g id hf, modifyFirst_of_find_none id _ g.players hf]
  | some pl =>
    by_cases hd : g.deck = []
    · exact ⟨_, by rw [drawCard_of_deck_nil rng g id pl hf hd]⟩
    · exact ⟨_, by rw [drawCard_of_deck_ne rng g id pl hf hd]⟩

/-- Forced draws only append cards to the hand of the player they are made for. -/
theorem forcedDraws_players (n : Nat) (rng : Rng) (g : CardGame) (id : String) :
    ∃ extra, (forcedDraws n rng g id).1.players
        = modifyFirst id (fun q => { q with hand := q.hand ++ extra }) g.players ∧
      (n = 0 → extra = []) := by
  induction n generalizing rng g with
  | zero =>
    refine ⟨[], ?_, fun _ => rfl⟩
    rw [modifyFirst_of_fixed id _ (fun q => by simp) g.players]
    rfl
  | succ k ih =>
    unfold forcedDraws
    simp only []
    obtain ⟨e1, h1⟩ := drawCard_players rng g id
    obtain ⟨e2, h2, _⟩ := ih (drawCard rng g id).2.2 (drawCard rng g id).2.1
    refine ⟨e1 ++ e2, ?_, fun h => by omega⟩
    rw [h2, h1, modifyFirst_modifyFirst id (fun q => { q with hand := q.hand ++ e2 })
      (fun q => { q with hand := q.hand ++ e1 }) (fun _ => rfl) g.players]
    simp only [List.append_assoc]

/-! ## Reachable states: auxiliary facts -/

theorem length_dealHands (ps : List Player) (deck : List Slot) :
    (dealHands ps deck).1.length = ps.length := by
  induction ps generalizing deck with
  | nil => rfl
  | cons q qs ih => simp [dealHands, ih]

/-- The turn-pointer invariant of a game of `n` players. -/
theorem pointer_after_play (n : Nat) (rng : Rng) (g : CardGame) (p : String) (i : Int)
    (c : Option String) (out : PlayResult × CardGame × Rng)
    (h : playCard rng g p i c = some out) (hn : 1 ≤ n)
    (hinv : (g.direction = 1 ∨ g.direction = -1) ∧ 0 ≤ g.currentPlayerIndex ∧
      g.currentPlayerIndex < (n : Int) ∧ g.players.length = n) :
    (out.2.1.direction = 1 ∨ out.2.1.direction = -1) ∧ 0 ≤ out.2.1.currentPlayerIndex ∧
      out.2.1.currentPlayerIndex < (n : Int) ∧ out.2.1.players.length = n := by
  obtain ⟨hdir, hlo, hhi, hlen⟩ := hinv
  by_cases hs : out.1.success = true
  · obtain ⟨pl, m, card, hin, hf, hcard, hc⟩ := playCard_success_inv h hs
    subst hin
    have hlen1 : (afterDiscard g p (pl.hand.eraseIdx m) card c).players.length = n := by
      simp [afterDiscard, length_modifyFirst, hlen]
    rw [playCard_of_canPlay rng g p m c pl card hf hcard hc] at h
    split at h
    · simp only [Option.some.injEq] at h
      subst h
      exact ⟨hdir, hlo, hhi, hlen1⟩
    · cases he : applyCardEffect rng (afterDiscard g p (pl.hand.eraseIdx m) card c) card with
      | none => rw [he] at h; cases h
      | some x =>
        rw [he] at h
        simp only [Option.some.injEq] at h
        subst h
        obtain ⟨t1, t2, t3⟩ := applyCardEffect_turn rng
          (afterDiscard g p (pl.hand.eraseIdx m) card c) card x he (by rw [hlen1]; exact hn)
          hlo hdir
        rw [hlen1] at t1 t3
        have hd : (afterDiscard g p (pl.hand.eraseIdx m) card c).direction = g.direction := rfl
        rw [hd] at t2
        have hnpos : (0 : Int) < (n : Int) := by omega
        refine ⟨?_, ?_, ?_, t1⟩
        · show x.1.direction = 1 ∨ x.1.direction = -1
          rw [t2]
          by_cases hr : card.value = "reverse"
          · rw [if_pos hr]
            rcases hdir with h1 | h1 <;> rw [h1] <;> simp
          · rw [if_neg hr]; exact hdir
        · show 0 ≤ x.1.currentPlayerIndex
          rw [t3]; exact Int.emod_nonneg _ (by omega)
        · show x.1.currentPlayerIndex < (n : Int)
          rw [t3]; exact Int.emod_lt_of_pos _ hnpos
  · rw [playCard_failure_inv h hs]
    exact ⟨hdir, hlo, hhi, hlen⟩

theorem pointer_reachable (allowed : Option String → Prop) (g0 g : CardGame) (n : Nat)
    (hn : 1 ≤ n) (h0 : g0.direction = 1 ∧ g0.currentPlayerIndex = 0 ∧ g0.players.length = n)
    (h : Reachable allowed g0 g) :
    (g.direction = 1 ∨ g.direction = -1) ∧ 0 ≤ g.currentPlayerIndex ∧
      g.currentPlayerIndex < (n : Int) ∧ g.players.length = n := by
  induction h with
  | deal g1 hdeal =>
    unfold dealCards at hdeal
    simp only [] at hdeal
    split at hdeal
    · cases hdeal
    · simp only [Option.some.injEq] at hdeal
      subst hdeal
      refine ⟨Or.inl h0.1, ?_, ?_, ?_⟩
      · show 0 ≤ g0.currentPlayerIndex
        rw [h0.2.1]
      · show g0.currentPlayerIndex < (n : Int)
        rw [h0.2.1]; omega
      · show (dealHands g0.players g0.deck).1.length = n
        rw [length_dealHands, h0.2.2]
  | started g _ ih => exact ih
  | play rng g p i c out _ _ hplay ih => exact pointer_after_play n rng g p i c out hplay hn ih
  | draw rng g p _ ih =>
    obtain ⟨f1, f2, f3, _⟩ := drawCard_frame rng g p
    rw [f1, f2, f3]; exact ih
  | next g _ ih =>
    obtain ⟨hdir, hlo, hhi, hlen⟩ := ih
    have hb := nextPlayer_index_bounds g (by omega) hlo hdir
    rw [hlen] at hb
    exact ⟨hdir, hb.1, hb.2, hlen⟩

set_option maxRecDepth 100000 in
theorem dealCards_ordered :
    dealCards (CardGame.create orderedRng "ROOM" roster2).1
      = some { openingState with gameStarted := false } := by decide

/-- The deck of a constructed game is a permutation of the cards pushed. -/
theorem create_deck_perm (rng : Rng) (roomId : String) (roster : List RosterEntry) :
    (CardGame.create rng roomId roster).1.deck.Perm (unshuffledDeck.map some) := by
  simp only [CardGame.create, initializeDeck, List.nil_append]
  exact shuffleDeck_perm rng _

theorem dealLoop_eq (n : Nat) (hand deck : List Slot) (hn : n ≤ deck.length) :
    dealLoop n hand deck = (hand ++ deck.reverse.take n, deck.take (deck.length - n)) := by
  induction n generalizing hand deck with
  | zero => simp [dealLoop]
  | succ k ih =>
    have hd : deck ≠ [] := by
      intro h0; rw [h0] at hn; simp at hn
    unfold dealLoop
    rw [ih _ _ (by simp only [List.length_dropLast]; omega), jsLast_cons_reverse deck hd k]
    have hdeck : deck.dropLast.take (deck.dropLast.length - k)
        = deck.take (deck.length - (k + 1)) := by
      rw [List.length_dropLast, List.dropLast_eq_take, List.take_take]
      congr 1
      omega
    rw [hdeck]
    simp only [List.append_assoc, List.singleton_append]

/-- Dealing seven cards to each player from a deck that holds enough: seat `k` gets the
cards at depth `7k .. 7k+6` from the top, in the order they are popped, and the deck
loses its top `7 * N` cards. -/
theorem dealHands_eq (ps : List Player) (deck : List Slot) (hn : 7 * ps.length ≤ deck.length) :
    (dealHands ps deck).2 = deck.take (deck.length - 7 * ps.length) ∧
    ∀ (k : Nat) (q : Player), ps[k]? = some q →
      (dealHands ps deck).1[k]?
        = some { q with hand := q.hand ++ (deck.reverse.drop (7 * k)).take 7 } := by
  induction ps generalizing deck with
  | nil => simp [dealHands]
  | cons a as ih =>
    simp only [List.length_cons] at hn
    unfold dealHands
    simp only []
    rw [dealLoop_eq 7 a.hand deck (by omega)]
    simp only []
    have hlen : (deck.take (deck.length - 7)).length = deck.length - 7 := by
      rw [List.length_take]; omega
    obtain ⟨i1, i2⟩ := ih (deck.take (deck.length - 7)) (by rw [hlen]; omega)
    have hrev : (deck.take (deck.length - 7)).reverse = deck.reverse.drop 7 := by
      rw [List.reverse_take]
      congr 1
      omega
    constructor
    · rw [i1, hlen, List.take_take]
      congr 1
      simp only [List.length_cons]
      omega
    · intro k q hq
      cases k with
      | zero =>
        simp only [List.getElem?_cons_zero, Option.some.injEq] at hq
        subst hq
        simp
      | succ j =>
        simp only [List.getElem?_cons_succ] at hq ⊢
        have h7 : 7 + 7 * j = 7 * (j + 1) := by omega
        rw [i2 j q hq, hrev, List.drop_drop, h7]

theorem takeWhile_length_le_countP (l : List Slot) :
    (l.takeWhile isWildSlot).length ≤ l.countP isWildSlot := by
  induction l with
  | nil => simp
  | cons s t ih =>
    by_cases hs : isWildSlot s = true
    · simp only [List.takeWhile_cons, hs, if_true, List.length_cons, List.countP_cons_of_pos]
      omega
    · simp [List.takeWhile_cons, hs]

/-- The seeding loop ends on a card as soon as the deck holds only cards, not all of
them wild. -/
theorem seedLoop_of_cards (l : List Slot) (hcards : ∀ s ∈ l, s ≠ none)
    (hw : l.countP isWildSlot < l.length) :
    ∃ c rest, seedLoop l = some (c, rest) ∧
      l = l.takeWhile isWildSlot ++ some c :: rest ∧ c.type ≠ "wild" := by
  induction l with
  | nil => simp at hw
  | cons s t ih =>
    cases s with
    | none => exact absurd rfl (hcards none (List.mem_cons_self _ _))
    | some d =>
      by_cases hd : d.type = "wild"
      · have hwild : isWildSlot (some d) = true := by simp [isWildSlot, hd]
        have hw' : t.countP isWildSlot < t.length := by
          rw [List.countP_cons_of_pos _ _ hwild, List.length_cons] at hw
          omega
        obtain ⟨c, rest, h1, h2, h3⟩ := ih (fun s hs => hcards s (List.mem_cons_of_mem _ hs)) hw'
        refine ⟨c, rest, ?_, ?_, h3⟩
        · simp only [seedLoop, hd, if_true]; exact h1
        · rw [List.takeWhile_cons, if_pos hwild, List.cons_append, ← h2]
      · have hwild : ¬ isWildSlot (some d) = true := by simp [isWildSlot, hd]
        refine ⟨d, t, ?_, ?_, hd⟩
        · simp only [seedLoop, hd, if_false]
        · rw [List.takeWhile_cons, if_neg hwild, List.nil_append]

set_option maxRecDepth 100000 in
theorem unshuffledDeck_facts :
    (unshuffledDeck.map some).length = 108 ∧
    (unshuffledDeck.map some).countP isWildSlot = 8 := by
  constructor <;> decide

/-- The seeding loop on what is left of a full deck after at most four hands: it stops on
a card that is not wild after at most eight wild cards. -/
theorem seed_after_hands (deck : List Slot) (n : Nat)
    (hdeck : deck.Perm (unshuffledDeck.map some)) (hn : n ≤ 4) :
    ∃ top rest,
      seedLoop (deck.reverse.drop (7 * n)) = some (top, rest) ∧
      deck.reverse.drop (7 * n)
        = (deck.reverse.drop (7 * n)).takeWhile isWildSlot ++ some top :: rest ∧
      top.type ≠ "wild" ∧
      ((deck.reverse.drop (7 * n)).takeWhile isWildSlot).length ≤ 8 ∧
      ((deck.reverse.drop (7 * n)).takeWhile isWildSlot).length + 1 + rest.length
        = 108 - 7 * n := by
  have hlen : deck.length = 108 := by rw [hdeck.length_eq]; exact unshuffledDeck_facts.1
  have hwild : deck.countP isWildSlot = 8 := by
    rw [hdeck.countP_eq]; exact unshuffledDeck_facts.2
  have hcards : ∀ s ∈ deck.reverse.drop (7 * n), s ≠ none := by
    intro s hs
    have h1 : s ∈ deck := List.mem_reverse.mp (List.mem_of_mem_drop hs)
    have h2 : s ∈ unshuffledDeck.map some := hdeck.mem_iff.mp h1
    obtain ⟨c, _, hc⟩ := List.mem_map.mp h2
    rw [← hc]; simp
  have hl : (deck.reverse.drop (7 * n)).length = 108 - 7 * n := by
    rw [List.length_drop, List.length_reverse, hlen]
  have hcount : (deck.reverse.drop (7 * n)).countP isWildSlot ≤ 8 := by
    have := (List.drop_sublist (7 * n) deck.reverse).countP_le (p := isWildSlot)
    rw [List.countP_reverse, hwild] at this
    exact this
  obtain ⟨top, rest, h1, h2, h3⟩ := seedLoop_of_cards _ hcards (by rw [hl]; omega)
  refine ⟨top, rest, h1, h2, h3, ?_, ?_⟩
  · exact Nat.le_trans (takeWhile_length_le_countP _) hcount
  · have := congrArg List.length h2
    rw [hl, List.length_append, List.length_cons] at this
    omega

/-! ## Current color: auxiliary facts -/

theorem slotOK_none : slotOK none := fun _ h => by cases h

theorem slotOK_jsLast (l : List Slot) (h : ∀ s ∈ l, slotOK s) : slotOK (jsLast l) := by
  unfold jsLast
  cases hl : l.getLast? with
  | none => exact slotOK_none
  | some x =>
    obtain ⟨ys, hys⟩ := List.getLast?_eq_some_iff.mp hl
    have : x ∈ l := by rw [hys]; simp
    exact h x this

theorem hands_modifyFirst (id : String) (f : Player → Player) (ps : List Player)
    (h : ∀ q ∈ ps, ∀ s ∈ q.hand, slotOK s)
    (hf : ∀ q, (∀ s ∈ q.hand, slotOK s) → ∀ s ∈ (f q).hand, slotOK s) :
    ∀ q ∈ modifyFirst id f ps, ∀ s ∈ q.hand, slotOK s := by
  induction ps with
  | nil => intro q hq; simp [modifyFirst] at hq
  | cons a as ih =>
    have ha := h a (List.mem_cons_self _ _)
    have has : ∀ q ∈ as, ∀ s ∈ q.hand, slotOK s :=
      fun q hq => h q (List.mem_cons_of_mem _ hq)
    intro q hq
    unfold modifyFirst at hq
    split at hq
    · rcases List.mem_cons.mp hq with h1 | h1
      · rw [h1]; exact hf a ha
      · exact has q h1
    · rcases List.mem_cons.mp hq with h1 | h1
      · rw [h1]; exact ha
      · exact ih has q h1

theorem hands_push (s0 : Slot) (h0 : slotOK s0) (q : Player)
    (h : ∀ s ∈ q.hand, slotOK s) :
    ∀ s ∈ ({ q with hand := q.hand ++ [s0] } : Player).hand, slotOK s := by
  intro s hs
  rcases List.mem_append.mp hs with h1 | h1
  · exact h s h1
  · rw [List.mem_singleton.mp h1]; exact h0

theorem drawCard_allOK (rng : Rng) (g : CardGame) (p : String) (h : AllOK g) :
    AllOK (drawCard rng g p).2.1 := by
  obtain ⟨hd, hs, hp⟩ := h
  cases hf : findPlayer g.players p with
  | none => rw [drawCard_of_find_none rng g p hf]; exact ⟨hd, hs, hp⟩
  | some pl =>
    by_cases hdk : g.deck = []
    · rw [drawCard_of_deck_nil rng g p pl hf hdk]
      have hsh : ∀ s ∈ (shuffleDeck rng g.discardPile.dropLast).1, slotOK s := fun s hs' =>
        hs s (List.mem_of_mem_dropLast ((shuffleDeck_perm rng _).mem_iff.mp hs'))
      refine ⟨fun s hs' => hsh s (List.mem_of_mem_dropLast hs'), ?_, ?_⟩
      · intro s hs'
        rw [List.mem_singleton.mp hs']
        exact slotOK_jsLast _ hs
      · exact hands_modifyFirst p _ g.players hp
          (fun q hq => hands_push _ (slotOK_jsLast _ hsh) q hq)
    · rw [drawCard_of_deck_ne rng g p pl hf hdk]
      refine ⟨fun s hs' => hd s (List.mem_of_mem_dropLast hs'), hs, ?_⟩
      exact hands_modifyFirst p _ g.players hp
        (fun q hq => hands_push _ (slotOK_jsLast _ hd) q hq)

theorem forcedDraws_allOK (n : Nat) (rng : Rng) (g : CardGame) (id : String) (h : AllOK g) :
    AllOK (forcedDraws n rng g id).1 := by
  induction n generalizing rng g with
  | zero => exact h
  | succ k ih =>
    unfold forcedDraws
    exact ih _ _ (drawCard_allOK rng g id h)

theorem allOK_nextPlayer (g : CardGame) (h : AllOK g) : AllOK (nextPlayer g) := h

theorem applyCardEffect_allOK (rng : Rng) (g : CardGame) (card : Card) (x : CardGame × Rng)
    (h : applyCardEffect rng g card = some x) (hok : AllOK g) :
    AllOK x.1 ∧ x.1.currentColor = g.currentColor := by
  have hdraw : ∀ n : Nat, ∀ y, drawEffect n rng g = some y →
      AllOK (nextPlayer y.1) ∧ (nextPlayer y.1).currentColor = g.currentColor := by
    intro n y hy
    simp only [drawEffect] at hy
    split at hy
    · cases hy
    · rename_i victim _
      simp only [Option.some.injEq] at hy
      subst hy
      exact ⟨forcedDraws_allOK n rng (nextPlayer g) victim.id hok,
        (forcedDraws_frame n rng (nextPlayer g) victim.id).2.2.2.1⟩
  simp only [applyCardEffect] at h
  by_cases hskip : card.value = "skip"
  · simp only [if_pos hskip, Option.some.injEq] at h
    subst h; exact ⟨hok, rfl⟩
  · by_cases hrev : card.value = "reverse"
    · simp only [if_neg hskip, if_pos hrev, Option.some.injEq] at h
      subst h
      by_cases h2 : g.players.length = 2
      · simp only [h2, if_true]; exact ⟨hok, rfl⟩
      · simp only [h2, if_false]; exact ⟨hok, rfl⟩
    · by_cases hd2 : card.value = "draw2"
      · simp only [if_neg hskip, if_neg hrev, if_pos hd2] at h
        cases hy : drawEffect 2 rng g with
        | none => rw [hy] at h; cases h
        | some y =>
          rw [hy] at h
          simp only [Option.some.injEq] at h
          subst h
          exact hdraw 2 y hy
      · by_cases hd4 : card.value = "wild-draw4"
        · simp only [if_neg hskip, if_neg hrev, if_neg hd2, if_pos hd4] at h
          cases hy : drawEffect 4 rng g with
          | none => rw [hy] at h; cases h
          | some y =>
            rw [hy] at h
            simp only [Option.some.injEq] at h
            subst h
            exact hdraw 4 y hy
        · simp only [if_neg hskip, if_neg hrev, if_neg hd2, if_neg hd4,
            Option.some.injEq] at h
          subst h; exact ⟨hok, rfl⟩

theorem colorOrDefault_canonical (c : Option String) (hc : canonicalChoice c) :
    colorOrDefault c ∈ COLORS := by
  cases c with
  | none => decide
  | some s =>
    by_cases hs : s = ""
    · simp only [colorOrDefault, hs, if_true]; decide
    · simp only [colorOrDefault, hs, if_false]
      rcases hc s rfl with h | h
      · exact absurd h hs
      · exact h

theorem findPlayer_mem {ps : List Player} {p : String} {pl : Player}
    (h : findPlayer ps p = some pl) : pl ∈ ps := List.mem_of_find?_eq_some h

/-- A play with a canonical color choice keeps every card canonical and the current
color one of `COLORS`. -/
theorem playCard_color (rng : Rng) (g : CardGame) (p : String) (i : Int)
    (c : Option String) (out : PlayResult × CardGame × Rng)
    (h : playCard rng g p i c = some out) (hc : canonicalChoice c)
    (hinv : AllOK g ∧ ∃ s ∈ COLORS, g.currentColor = some s) :
    AllOK out.2.1 ∧ ∃ s ∈ COLORS, out.2.1.currentColor = some s := by
  by_cases hs : out.1.success = true
  · obtain ⟨pl, m, card, hin, hf, hcard, hcan⟩ := playCard_success_inv h hs
    subst hin
    obtain ⟨hd, hdis, hp⟩ := hinv.1
    have hplh : ∀ s ∈ pl.hand, slotOK s := hp pl (findPlayer_mem hf)
    have hcardok : slotOK (some card) := by
      obtain ⟨hm, hget⟩ := List.getElem?_eq_some_iff.mp hcard
      exact hplh _ (hget ▸ List.getElem_mem hm)
    have hcol : (if card.type = "wild" then colorOrDefault c else card.color) ∈ COLORS := by
      by_cases hw : card.type = "wild"
      · rw [if_pos hw]; exact colorOrDefault_canonical c hc
      · rw [if_neg hw]
        rcases hcardok card rfl with h1 | h1
        · exact absurd h1 hw
        · exact h1
    have hok1 : AllOK (afterDiscard g p (pl.hand.eraseIdx m) card c) := by
      refine ⟨hd, ?_, ?_⟩
      · intro s hs'
        rcases List.mem_append.mp hs' with h1 | h1
        · exact hdis s h1
        · rw [List.mem_singleton.mp h1]; exact hcardok
      · exact hands_modifyFirst p _ g.players hp
          (fun q _ s hs' => hplh s (List.mem_of_mem_eraseIdx hs'))
    rw [playCard_of_canPlay rng g p m c pl card hf hcard hcan] at h
    split at h
    · simp only [Option.some.injEq] at h
      subst h
      exact ⟨hok1, _, hcol, rfl⟩
    · cases he : applyCardEffect rng (afterDiscard g p (pl.hand.eraseIdx m) card c) card with
      | none => rw [he] at h; cases h
      | some x =>
        rw [he] at h
        simp only [Option.some.injEq] at h
        subst h
        obtain ⟨a1, a2⟩ := applyCardEffect_allOK rng _ card x he hok1
        exact ⟨a1, _, hcol, a2⟩
  · rw [playCard_failure_inv h hs]
    exact hinv

theorem dealLoop_allOK (n : Nat) (hand deck : List Slot)
    (hh : ∀ s ∈ hand, slotOK s) (hd : ∀ s ∈ deck, slotOK s) :
    (∀ s ∈ (dealLoop n hand deck).1, slotOK s) ∧ (∀ s ∈ (dealLoop n hand deck).2, slotOK s) := by
  induction n generalizing hand deck with
  | zero => exact ⟨hh, hd⟩
  | succ k ih =>
    unfold dealLoop
    apply ih
    · intro s hs
      rcases List.mem_append.mp hs with h1 | h1
      · exact hh s h1
      · rw [List.mem_singleton.mp h1]; exact slotOK_jsLast deck hd
    · exact fun s hs => hd s (List.mem_of_mem_dropLast hs)

theorem dealHands_allOK (ps : List Player) (deck : List Slot)
    (hp : ∀ q ∈ ps, ∀ s ∈ q.hand, slotOK s) (hd : ∀ s ∈ deck, slotOK s) :
    (∀ q ∈ (dealHands ps deck).1, ∀ s ∈ q.hand, slotOK s) ∧
    (∀ s ∈ (dealHands ps deck).2, slotOK s) := by
  induction ps generalizing deck with
  | nil => exact ⟨hp, hd⟩
  | cons a as ih =>
    unfold dealHands
    simp only []
    obtain ⟨l1, l2⟩ := dealLoop_allOK 7 a.hand deck (hp a (List.mem_cons_self _ _)) hd
    obtain ⟨i1, i2⟩ := ih (dealLoop 7 a.hand deck).2
      (fun q hq => hp q (List.mem_cons_of_mem _ hq)) l2
    refine ⟨?_, i2⟩
    intro q hq
    rcases List.mem_cons.mp hq with h1 | h1
    · rw [h1]; exact l1
    · exact i1 q h1

theorem seedLoop_mem (l : List Slot) (c : Card) (rest : List Slot)
    (h : seedLoop l = some (c, rest)) :
    some c ∈ l ∧ (∀ s ∈ rest, s ∈ l) ∧ c.type ≠ "wild" := by
  induction l with
  | nil => simp [seedLoop] at h
  | cons s t ih =>
    cases s with
    | none => simp [seedLoop] at h
    | some d =>
      unfold seedLoop at h
      by_cases hw : d.type = "wild"
      · rw [if_pos hw] at h
        obtain ⟨i1, i2, i3⟩ := ih h
        exact ⟨List.mem_cons_of_mem _ i1, fun s hs => List.mem_cons_of_mem _ (i2 s hs), i3⟩
      · rw [if_neg hw] at h
        simp only [Option.some.injEq, Prod.mk.injEq] at h
        obtain ⟨h1, h2⟩ := h
        subst h1 h2
        exact ⟨List.mem_cons_self _ _, fun s hs => List.mem_cons_of_mem _ hs, hw⟩

/-- After `dealCards` on a game whose cards are canonical, they still are and the current
color is one of `COLORS`. -/
theorem dealCards_color (g0 g1 : CardGame) (h : dealCards g0 = some g1) (hok : AllOK g0) :
    AllOK g1 ∧ ∃ s ∈ COLORS, g1.currentColor = some s := by
  obtain ⟨hd, hs, hp⟩ := hok
  obtain ⟨d1, d2⟩ := dealHands_allOK g0.players g0.deck hp hd
  unfold dealCards at h
  simp only [] at h
  split at h
  · cases h
  · rename_i firstCard rest hseed
    simp only [Option.some.injEq] at h
    subst h
    obtain ⟨m1, m2, m3⟩ := seedLoop_mem _ _ _ hseed
    have hfirst : slotOK (some firstCard) := d2 _ (List.mem_reverse.mp m1)
    refine ⟨⟨?_, ?_, d1⟩, firstCard.color, ?_, rfl⟩
    · intro s hs'
      exact d2 s (List.mem_reverse.mp (m2 s (List.mem_reverse.mp hs')))
    · intro s hs'
      rcases List.mem_append.mp hs' with h1 | h1
      · exact hs s h1
      · rw [List.mem_singleton.mp h1]; exact hfirst
    · rcases hfirst firstCard rfl with h1 | h1
      · exact absurd h1 m3
      · exact h1

theorem hand_mkPlayers (idx : Nat) (roster : List RosterEntry) :
    ∀ q ∈ mkPlayers idx roster, q.hand = [] := by
  induction roster generalizing idx with
  | nil => intro q hq; simp [mkPlayers] at hq
  | cons e es ih =>
    intro q hq
    rcases List.mem_cons.mp hq with h1 | h1
    · rw [h1]
    · exact ih (idx + 1) q h1

set_option maxRecDepth 100000 in
theorem unshuffledDeck_colors :
    ∀ c ∈ unshuffledDeck, c.type = "wild" ∨ c.color ∈ COLORS := by decide

theorem create_allOK (rng : Rng) (roomId : String) (roster : List RosterEntry) :
    AllOK (CardGame.create rng roomId roster).1 := by
  refine ⟨?_, ?_, ?_⟩
  · intro s hs c hc
    have h1 : s ∈ unshuffledDeck.map some := (create_deck_perm rng roomId roster).mem_iff.mp hs
    obtain ⟨d, hd, hdc⟩ := List.mem_map.mp h1
    rw [hc] at hdc
    cases hdc
    exact unshuffledDeck_colors c hd
  · intro s hs
    have : (CardGame.create rng roomId roster).1.discardPile = [] := rfl
    rw [this] at hs
    cases hs
  · intro q hq s hs
    have hpl : (CardGame.create rng roomId roster).1.players = mkPlayers 0 roster := rfl
    rw [hpl] at hq
    rw [hand_mkPlayers 0 roster q hq] at hs
    cases hs

theorem color_reachable (g0 g : CardGame) (hok : AllOK g0)
    (h : Reachable canonicalChoice g0 g) :
    AllOK g ∧ ∃ s ∈ COLORS, g.currentColor = some s := by
  induction h with
  | deal g1 hdeal => exact dealCards_color g0 g1 hdeal hok
  | started g _ ih => exact ih
  | play rng g p i c out _ hc hplay ih => exact playCard_color rng g p i c out hplay hc ih
  | draw rng g p _ ih =>
    exact ⟨drawCard_allOK rng g p ih.1, by rw [(drawCard_frame rng g p).2.2.2.1]; exact ih.2⟩
  | next g _ ih => exact ih

/-! ## Duplicate ids and exact forced draws: auxiliary facts -/

set_option maxRecDepth 100000 in
theorem twinGame_eq :
    (startGame orderedRng "ROOM" twinRoster).map (fun r => r.1) = some twinState := by
  decide

theorem drawCard_players_one (rng : Rng) (g : CardGame) (id : String) (pl : Player)
    (hf : findPlayer g.players id = some pl) :
    ∃ s : Slot, (drawCard rng g id).2.1.players
      = modifyFirst id (fun q => { q with hand := q.hand ++ [s] }) g.players := by
  by_cases hd : g.deck = []
  · exact ⟨_, by rw [drawCard_of_deck_nil rng g id pl hf hd]⟩
  · exact ⟨_, by rw [drawCard_of_deck_ne rng g id pl hf hd]⟩

/-- `n` forced draws for an engine player append exactly `n` entries to the hand `find`
returns for the id, and touch no other hand. -/
theorem forcedDraws_players_length (n : Nat) (rng : Rng) (g : CardGame) (id : String)
    (pl : Player) (hf : findPlayer g.players id = some pl) :
    ∃ extra, (forcedDraws n rng g id).1.players
        = modifyFirst id (fun q => { q with hand := q.hand ++ extra }) g.players ∧
      extra.length = n := by
  induction n generalizing rng g pl with
  | zero =>
    refine ⟨[], ?_, rfl⟩
    rw [modifyFirst_of_fixed id _ (fun q => by simp) g.players]
    rfl
  | succ k ih =>
    unfold forcedDraws
    simp only []
    obtain ⟨s, h1⟩ := drawCard_players_one rng g id pl hf
    have hf1 : findPlayer (drawCard rng g id).2.1.players id
        = some { pl with hand := pl.hand ++ [s] } := by
      rw [h1, findPlayer_modifyFirst id (fun q => { q with hand := q.hand ++ [s] })
        (fun _ => rfl) g.players, hf]
      rfl
    obtain ⟨e2, h2, hl⟩ := ih (drawCard rng g id).2.2 (drawCard rng g id).2.1 _ hf1
    refine ⟨[s] ++ e2, ?_, by rw [List.length_append, List.length_singleton, hl]; omega⟩
    rw [h2, h1, modifyFirst_modifyFirst id (fun q => { q with hand := q.hand ++ e2 })
      (fun q => { q with hand := q.hand ++ [s] }) (fun _ => rfl) g.players]
    simp only [List.append_assoc]

/-- The entries appended by forced draws are the top cards of the deck, in the order
popped, when the deck holds that many. -/
theorem forcedDraws_players_exact (n : Nat) (rng : Rng) (g : CardGame) (id : String)
    (pl : Player) (hf : findPlayer g.players id = some pl) :
    ∃ extra, (forcedDraws n rng g id).1.players
        = modifyFirst id (fun q => { q with hand := q.hand ++ extra }) g.players ∧
      extra.length = n ∧ (n ≤ g.deck.length → extra = g.deck.reverse.take n) := by
  by_cases hn : n ≤ g.deck.length
  · refine ⟨g.deck.reverse.take n, ?_, ?_, fun _ => rfl⟩
    · rw [forcedDraws_of_deck n rng g id pl hf hn]
    · rw [List.length_take, List.length_reverse]; omega
  · obtain ⟨extra, h1, h2⟩ := forcedDraws_players_length n rng g id pl hf
    exact ⟨extra, h1, h2, fun h => absurd h hn⟩

/-! ## The claims -/

/-- C1, amended (card conservation).  For every roster of at most 4 players, every
outcome of the shuffle and every game built by the constructor and dealt by `dealCards`,
the count `|deck| + |discardPile| + Σ |hand|` is 108 minus the number of wild cards that
`dealCards` set aside while seeding the discard pile, and it keeps that value after every
call of a finite sequence of `playCard` and `drawCard` calls in which no draw starves
(`Run`): no `drawCard` call finds the deck empty with fewer than two entries in the
discard pile, and no play without winner forces more draws than deck and discard pile
hold together. -/
theorem card_conservation (rng : Rng) (roomId : String) (roster : List RosterEntry)
    (g1 g : CardGame) (hN : roster.length ≤ 4)
    (hdeal : dealCards (CardGame.create rng roomId roster).1 = some g1)
    (hrun : Run g1 g) :
    total g + setAside (CardGame.create rng roomId roster).1 = 108 := by
  rw [total_run g1 g hrun]
  exact total_after_deal rng roomId roster g1 hN hdeal

set_option maxRecDepth 100000 in
/-- C1, instance of the amended statement: the two-player game dealt from the ordered
deck, after `A` has drawn a card. -/
theorem card_conservation_witness :
    total (drawCard orderedRng { openingState with gameStarted := false } "A").2.1
      + setAside (CardGame.create orderedRng "ROOM" roster2).1 = 108 :=
  card_conservation orderedRng "ROOM" roster2 { openingState with gameStarted := false }
    (drawCard orderedRng { openingState with gameStarted := false } "A").2.1
    (by decide) (by decide)
    (Run.draw orderedRng { openingState with gameStarted := false } "A" Run.start
      (Or.inl (by decide)))

set_option maxRecDepth 100000 in
/-- C1 as stated fails: with two players and a shuffle that leaves a wild-draw4 as the
fifteenth card from the top, `dealCards` deals fourteen cards, pops the wild-draw4 and
drops it, and puts the next card on the discard pile: 107 cards are left in deck, discard
pile and hands, and 107 it is after a following `drawCard('A')` and after a following
`playCard('A', 0)` of the yellow 9 that `A` holds at index 0. -/
theorem deal_drops_wild_card :
    (dealCards (CardGame.create wildFifteenthRng "ROOM" roster2).1).map
        (fun g => (g.deck.length, g.discardPile.length,
                   g.players.map (fun q => q.hand.length), total g))
      = some (92, 1, [7, 7], 107) ∧
    setAside (CardGame.create wildFifteenthRng "ROOM" roster2).1 = 1 ∧
    (dealCards (CardGame.create wildFifteenthRng "ROOM" roster2).1).map
        (fun g => total (drawCard orderedRng g "A").2.1) = some 107 ∧
    (dealCards (CardGame.create wildFifteenthRng "ROOM" roster2).1).bind
        (fun g => (playCard orderedRng g "A" 0 none).map
          (fun o => (o.1.success, total o.2.1))) = some (true, 107) := by
  refine ⟨by decide, by decide, by decide, by decide⟩

/-- C2 (rejected play is atomic).  In a game whose turn pointer addresses a player `cur`,
let `p` be an engine player.  If `p` is not `cur`, or the card `p` holds at index `i` is
not wild, its color differs from `currentColor` and its value differs from the value of the
discard top, then `playCard(p, i, c)` returns `{ success: false, message: 'Invalid card' }`
for every `c`, and the whole engine state (deck, discard pile, every hand,
`currentPlayerIndex`, `direction`, `currentColor`, `winner`) and the random stream are
the ones it started from. -/
theorem playCard_rejected_atomic (rng : Rng) (g : CardGame) (p : String) (i : Nat)
    (c : Option String) (pl cur : Player)
    (hp : findPlayer g.players p = some pl)
    (hcur : jsGet g.players g.currentPlayerIndex = some cur)
    (h : cur.id ≠ p ∨
      ∃ card top, pl.hand[i]? = some (some card) ∧ jsLast g.discardPile = some top ∧
        card.type ≠ "wild" ∧ some card.color ≠ g.currentColor ∧ card.value ≠ top.value) :
    playCard rng g p i c = some (invalidCard, g, rng) ∧ invalidCard.success = false := by
  refine ⟨?_, rfl⟩
  have hfalse : canPlayCard g (jsSlot pl.hand (i : Int)) p = some false := by
    unfold canPlayCard
    rw [hcur]
    by_cases hid : cur.id = p
    · rcases h with h | ⟨card, top, hcard, htop, hw, hcol, hval⟩
      · exact absurd hid h
      · simp [hid, jsSlot_natCast, hcard, Option.join, hw, hcol, htop, hval]
    · simp [hid]
  unfold playCard
  simp only [hp, hfalse]
  rfl

/-- C2, instance: in `tableGame` it is the turn of `A`, and `B` tries to play its green 1. -/
theorem playCard_rejected_atomic_witness :
    playCard orderedRng tableGame "B" (0 : Nat) (some "blue")
        = some (invalidCard, tableGame, orderedRng) ∧ invalidCard.success = false :=
  playCard_rejected_atomic orderedRng tableGame "B" 0 (some "blue")
    ⟨"B", "Ben", [some ⟨"green", "1", "number"⟩], 1⟩
    ⟨"A", "Ann", [some ⟨"red", "draw2", "special"⟩, some ⟨"blue", "7", "number"⟩], 0⟩
    (by decide) (by decide) (Or.inl (by decide))

set_option maxRecDepth 100000 in
/-- C3 (draw out of turn), evaluated on the opening position `openingState` of a
two-player game, where seat 0 (`A`) is to move: `drawCard('B')` returns the top card of
the deck, the hand of `B` grows from 7 to 8 cards and the deck shrinks from 93 to 92, and
the draw-card intent of `B` moves `currentPlayerIndex` from 0 to 1. -/
theorem drawCard_out_of_turn_succeeds :
    openingGame = some openingState ∧
    openingState.currentPlayerIndex = 0 ∧
    openingState.players.map (fun q => (q.id, q.hand.length)) = [("A", 7), ("B", 7)] ∧
    openingState.deck.length = 93 ∧
    (drawCard orderedRng openingState "B").1 = some (some ⟨"yellow", "9", "number"⟩) ∧
    (drawCard orderedRng openingState "B").2.1.players.map (fun q => (q.id, q.hand.length))
      = [("A", 7), ("B", 8)] ∧
    (drawCard orderedRng openingState "B").2.1.deck.length = 92 ∧
    (onDrawCard orderedRng openingState "B").1.currentPlayerIndex = 1 := by
  refine ⟨openingGame_eq, by decide, by decide, by decide, by decide, by decide, by decide,
    by decide⟩

/-- C4, amended (successful play).  In a game of `N ≥ 2` players with pairwise distinct
ids and `direction` equal to `+1` or `-1`, let the player `A` at `currentPlayerIndex`
(id `p`) hold at index `m` a card that is wild, or whose color equals `currentColor`, or
whose value equals the value of the discard top.  Then `playCard(p, m, c)` returns
`success = true` with that card (and `winner = p` exactly when it was the last card).
Afterwards the hand of `A` is the old hand with the element at index `m` removed; the
card is the discard top, and the discard pile is the old pile with the card appended
whenever the play wins or the deck holds at least as many cards as the card forces the
next player to draw (`forcedCount`: 2 for draw2, 4 for wild-draw4, otherwise 0); every
other seat keeps its player and its hand, except that when the play does not win the hand
of the player seated next in direction gets exactly `forcedCount` entries appended at its
end, which are the top cards of the deck in the order popped when the deck holds that
many; and `currentColor` is the color of the card if it is not wild, `c` if it is wild
and `c` is a non-empty string, and `'red'` if it is wild and `c` is omitted or empty. -/
theorem playCard_success_post (rng : Rng) (g : CardGame) (p : String) (m : Nat)
    (c : Option String) (A : Player) (card : Card)
    (hnd : (g.players.map (fun q => q.id)).Nodup) (hN : 2 ≤ g.players.length)
    (hdir : g.direction = 1 ∨ g.direction = -1)
    (hA : jsGet g.players g.currentPlayerIndex = some A) (hid : A.id = p)
    (hcard : A.hand[m]? = some (some card))
    (hplayable : card.type = "wild" ∨ some card.color = g.currentColor ∨
      ∃ top, jsLast g.discardPile = some top ∧ card.value = top.value) :
    ∃ g' rng',
      playCard rng g p m c
        = some (successResult card (if A.hand.length = 1 then some p else none), g', rng') ∧
      jsGet g'.players g.currentPlayerIndex = some { A with hand := A.hand.eraseIdx m } ∧
      jsLast g'.discardPile = some card ∧
      (A.hand.length = 1 ∨ forcedCount card.value ≤ g.deck.length →
        g'.discardPile = g.discardPile ++ [some card]) ∧
      (∀ (k : Int) (q : Player), k ≠ g.currentPlayerIndex → jsGet g.players k = some q →
        ∃ extra, jsGet g'.players k = some { q with hand := q.hand ++ extra } ∧
          extra.length
            = (if A.hand.length ≠ 1 ∧
                  k = (g.currentPlayerIndex + g.direction) % (g.players.length : Int)
               then forcedCount card.value else 0) ∧
          (A.hand.length ≠ 1 →
            k = (g.currentPlayerIndex + g.direction) % (g.players.length : Int) →
            forcedCount card.value ≤ g.deck.length →
            extra = g.deck.reverse.take (forcedCount card.value))) ∧
      g'.currentColor
        = some (if card.type = "wild" then
                  (match c with
                   | none => "red"
                   | some s => if s = "" then "red" else s)
                else card.color) := by
  have hc : canPlayCard g (some card) p = some true := canPlayCard_of_playable hA hid hplayable
  obtain ⟨hlo, hhi, hget⟩ := jsGet_eq_some hA
  have hm : m < A.hand.length := (List.getElem?_eq_some_iff.mp hcard).1
  have hcolor : (if card.type = "wild" then colorOrDefault c else card.color)
      = (if card.type = "wild" then
          (match c with
           | none => "red"
           | some s => if s = "" then "red" else s)
         else card.color) := by
    cases c <;> rfl
  have hfA : findPlayer g.players p = some A := by
    rw [← hid]; exact (modifyFirst_eq_set g.players hnd _ A hget id).1
  have hsetA : (afterDiscard g p (A.hand.eraseIdx m) card c).players
      = g.players.set g.currentPlayerIndex.toNat { A with hand := A.hand.eraseIdx m } := by
    rw [← hid]
    exact (modifyFirst_eq_set g.players hnd _ A hget
      (fun q => { q with hand := A.hand.eraseIdx m })).2
  have hselfA : jsGet
      (g.players.set g.currentPlayerIndex.toNat { A with hand := A.hand.eraseIdx m })
      g.currentPlayerIndex = some { A with hand := A.hand.eraseIdx m } := by
    have := jsGet_set_self g.players g.currentPlayerIndex.toNat
      { A with hand := A.hand.eraseIdx m } hhi
    rw [Int.toNat_of_nonneg hlo] at this
    exact this
  by_cases hone : A.hand.length = 1
  · have h0 : (A.hand.eraseIdx m).length = 0 := by
      rw [List.length_eraseIdx, if_pos hm]; omega
    refine ⟨{ afterDiscard g p (A.hand.eraseIdx m) card c with winner := some p }, rng,
      ?_, ?_, ?_, ?_, ?_, ?_⟩
    · rw [playCard_of_canPlay rng g p m c A card hfA hcard hc, if_pos h0, if_pos hone]
    · show jsGet (afterDiscard g p (A.hand.eraseIdx m) card c).players _ = _
      rw [hsetA]; exact hselfA
    · exact jsLast_append_singleton _ _
    · intro _; rfl
    · intro k q hk hq
      refine ⟨[], ?_, ?_, fun h => absurd hone h⟩
      · show jsGet (afterDiscard g p (A.hand.eraseIdx m) card c).players _ = _
        rw [hsetA, jsGet_set_ne _ _ _ _ (by rw [Int.toNat_of_nonneg hlo]; exact hk), hq]
        simp
      · rw [if_neg (fun h => h.1 hone)]
        rfl
    · show some _ = _
      rw [hcolor]
  · have hrest : (A.hand.eraseIdx m).length ≠ 0 := by
      rw [List.length_eraseIdx, if_pos hm]; omega
    obtain ⟨B, g2, hB, hne, hb0, hplay, hp2, hd2, hs2, _, hfB, hmB, hcol2, _, _, _⟩ :=
      playCard_nonwinning rng g p m c A card hnd hN hdir hA hid hcard hc hrest
    obtain ⟨extra, hex, hexlen, hextop⟩ := forcedDraws_players_exact (forcedCount card.value)
      rng (nextPlayer (afterDiscard g p (A.hand.eraseIdx m) card c)) B.id B hfB
    have hfr := forcedDraws_frame (forcedCount card.value) rng
      (nextPlayer (afterDiscard g p (A.hand.eraseIdx m) card c)) B.id
    rw [(nextPlayer_frame _).1, hmB, hsetA] at hex
    rw [hex] at hp2
    obtain ⟨_, hbl, _⟩ := jsGet_eq_some hB
    refine ⟨g2, (forcedDraws (forcedCount card.value) rng
      (nextPlayer (afterDiscard g p (A.hand.eraseIdx m) card c)) B.id).2, ?_, ?_, ?_, ?_, ?_, ?_⟩
    · rw [hplay, if_neg hone]
    · rw [hp2, jsGet_set_ne _ _ _ _ (by rw [Int.toNat_of_nonneg hb0]; exact Ne.symm hne)]
      exact hselfA
    · rw [hs2, hfr.2.2.2.2.2.2.2, (nextPlayer_frame _).2.2.1]
      exact jsLast_append_singleton _ _
    · intro hor
      have hle : forcedCount card.value ≤ g.deck.length := by
        rcases hor with h | h
        · exact absurd h hone
        · exact h
      rw [hs2, forcedDraws_of_deck (forcedCount card.value) rng
        (nextPlayer (afterDiscard g p (A.hand.eraseIdx m) card c)) B.id B hfB hle]
      rfl
    · intro k q hk hq
      by_cases hkb : k = (g.currentPlayerIndex + g.direction) % (g.players.length : Int)
      · subst hkb
        rw [hB, Option.some.injEq] at hq
        subst hq
        refine ⟨extra, ?_, ?_, ?_⟩
        · rw [hp2]
          have := jsGet_set_self
            (g.players.set g.currentPlayerIndex.toNat { A with hand := A.hand.eraseIdx m })
            ((g.currentPlayerIndex + g.direction) % (g.players.length : Int)).toNat
            { B with hand := B.hand ++ extra } (by rw [List.length_set]; exact hbl)
          rw [Int.toNat_of_nonneg hb0] at this
          exact this
        · rw [if_pos ⟨hone, rfl⟩]
          exact hexlen
        · intro _ _ hle
          exact hextop hle
      · refine ⟨[], ?_, ?_, fun _ h => absurd h hkb⟩
        · rw [hp2, jsGet_set_ne _ _ _ _ (by rw [Int.toNat_of_nonneg hb0]; exact hkb),
            jsGet_set_ne _ _ _ _ (by rw [Int.toNat_of_nonneg hlo]; exact hk), hq]
          simp
        · rw [if_neg (fun h => hkb h.2)]
          rfl
    · rw [hcol2, hcolor]

/-- C4, instance of the amended statement: in `tableGame` seat 0 (`A`) plays its red
draw2 on the red 3. -/
theorem playCard_success_post_witness :
    ∃ g' rng',
      playCard orderedRng tableGame "A" (0 : Nat) none
        = some (successResult ⟨"red", "draw2", "special"⟩
            (if ([some ⟨"red", "draw2", "special"⟩, some ⟨"blue", "7", "number"⟩] :
                  List Slot).length = 1
             then some "A" else none), g', rng') ∧
      jsGet g'.players tableGame.currentPlayerIndex
        = some { id := "A", name := "Ann",
                 hand := ([some ⟨"red", "draw2", "special"⟩, some ⟨"blue", "7", "number"⟩] :
                  List Slot).eraseIdx 0,
                 position := 0 } ∧
      jsLast g'.discardPile = some ⟨"red", "draw2", "special"⟩ ∧
      (([some ⟨"red", "draw2", "special"⟩, some ⟨"blue", "7", "number"⟩] :
            List Slot).length = 1 ∨
          forcedCount "draw2" ≤ tableGame.deck.length →
        g'.discardPile = tableGame.discardPile ++ [some ⟨"red", "draw2", "special"⟩]) ∧
      (∀ (k : Int) (q : Player), k ≠ tableGame.currentPlayerIndex →
        jsGet tableGame.players k = some q →
        ∃ extra, jsGet g'.players k = some { q with hand := q.hand ++ extra } ∧
          extra.length
            = (if ([some ⟨"red", "draw2", "special"⟩, some ⟨"blue", "7", "number"⟩] :
                      List Slot).length ≠ 1 ∧
                  k = (tableGame.currentPlayerIndex + tableGame.direction)
                        % (tableGame.players.length : Int)
               then forcedCount "draw2" else 0) ∧
          (([some ⟨"red", "draw2", "special"⟩, some ⟨"blue", "7", "number"⟩] :
                List Slot).length ≠ 1 →
            k = (tableGame.currentPlayerIndex + tableGame.direction)
                  % (tableGame.players.length : Int) →
            forcedCount "draw2" ≤ tableGame.deck.length →
            extra = tableGame.deck.reverse.take (forcedCount "draw2"))) ∧
      g'.currentColor
        = some (if "special" = "wild" then
                  (match (none : Option String) with
                   | none => "red"
                   | some s => if s = "" then "red" else s)
                else "red") :=
  playCard_success_post orderedRng tableGame "A" 0 none
    ⟨"A", "Ann", [some ⟨"red", "draw2", "special"⟩, some ⟨"blue", "7", "number"⟩], 0⟩
    ⟨"red", "draw2", "special"⟩
    (by decide) (by decide) (by decide) (by decide) (by rfl) (by decide)
    (Or.inr (Or.inl (by decide)))

set_option maxRecDepth 100000 in
/-- C4 as stated fails in three ways.  First, let `A` draw 93 times from the opening
position `openingState`, so that the deck is empty, and then play the wild-draw4 it holds
at index 0, choosing red: the play succeeds without a winner, the first forced draw
reshuffles, and the discard pile afterwards is the wild-draw4 alone, not the old pile (a
yellow 9) with the wild-draw4 appended.  Second, in `openingState` let `A` play the wild it
holds at index 1 and give the empty string as `chosenColor`: `currentColor` becomes
`'red'`, not the given value.  Third, in `twinState`, where seats 0 and 1 both carry the id
`A`, the player at `currentPlayerIndex = 0` plays the wild-draw4 it holds at index 0: the
forced draws for the id of seat 1 go to seat 0, whose hand afterwards holds ten cards and
is not the old hand with the element at index 0 removed. -/
theorem playCard_post_fails :
    (forcedDraws 93 orderedRng openingState "A").1.discardPile
      = [some ⟨"yellow", "9", "number"⟩] ∧
    (playCard orderedRng (forcedDraws 93 orderedRng openingState "A").1 "A" 0
        (some "red")).map (fun o => (o.1, o.2.1.discardPile))
      = some (successResult ⟨"wild", "wild-draw4", "wild"⟩ none,
              [some ⟨"wild", "wild-draw4", "wild"⟩]) ∧
    (playCard orderedRng openingState "A" 1 (some "")).map
        (fun o => (o.1, o.2.1.currentColor))
      = some (successResult ⟨"wild", "wild", "wild"⟩ none, some "red") ∧
    (startGame orderedRng "ROOM" twinRoster).map (fun r => r.1) = some twinState ∧
    (jsGet twinState.players twinState.currentPlayerIndex).map
        (fun q => (q.id, q.hand[0]?)) = some ("A", some (some ⟨"wild", "wild-draw4", "wild"⟩)) ∧
    (playCard orderedRng twinState "A" 0 (some "red")).map
        (fun o => (o.1, (jsGet o.2.1.players 0).map (fun q => q.hand.length)))
      = some (successResult ⟨"wild", "wild-draw4", "wild"⟩ none, some 10) ∧
    (playCard orderedRng twinState "A" 0 (some "red")).map (fun o => jsGet o.2.1.players 0)
      ≠ some ((jsGet twinState.players 0).map
          (fun q => { q with hand := q.hand.eraseIdx 0 })) := by
  refine ⟨by decide, by decide, by decide, twinGame_eq, by decide, by decide, by decide⟩

/-- C5 (net turn advance).  In a game of `N ≥ 2` players with `direction` equal to `+1` or
`-1`, let `playCard` succeed without a winner (the play does not empty the hand).  Then
the direction after the play is the old one negated exactly when the value of the card is
`reverse`, and the new `currentPlayerIndex` is `(old index + k * d') mod N`, with `d'` the
new direction and `k = turnSteps value N`: 2 for skip, draw2, wild-draw4 and for reverse
with `N = 2`, otherwise 1.  With `N = 2` a reverse or a skip leaves the turn where it
was. -/
theorem playCard_turn_advance (rng : Rng) (g : CardGame) (p : String) (i : Int)
    (c : Option String) (out : PlayResult × CardGame × Rng)
    (hN : 2 ≤ g.players.length) (hdir : g.direction = 1 ∨ g.direction = -1)
    (h : playCard rng g p i c = some out) (hs : out.1.success = true)
    (hw : out.1.winner = none) :
    ∃ card, out.1.card = some card ∧
      out.2.1.direction = (if card.value = "reverse" then -g.direction else g.direction) ∧
      out.2.1.currentPlayerIndex
        = (g.currentPlayerIndex + turnSteps card.value g.players.length * out.2.1.direction)
            % (g.players.length : Int) ∧
      (g.players.length = 2 → card.value = "reverse" ∨ card.value = "skip" →
        out.2.1.currentPlayerIndex = g.currentPlayerIndex) := by
  obtain ⟨r, g', rng'⟩ := out
  obtain ⟨pl, n, card, hin, hf, hcard, hc⟩ := playCard_success_inv h hs
  subst hin
  obtain ⟨cur, _, hcur, _, _, _⟩ := canPlayCard_eq_true hc
  obtain ⟨hlo, hhi, _⟩ := jsGet_eq_some hcur
  rw [playCard_of_canPlay rng g p n c pl card hf hcard hc] at h
  split at h
  · simp only [Option.some.injEq, Prod.mk.injEq] at h
    rw [← h.1] at hw
    cases hw
  · cases he : applyCardEffect rng (afterDiscard g p (pl.hand.eraseIdx n) card c) card with
    | none => rw [he] at h; cases h
    | some x =>
      rw [he] at h
      simp only [Option.some.injEq, Prod.mk.injEq] at h
      obtain ⟨h1, h2, _⟩ := h
      subst h1 h2
      have hlen : (afterDiscard g p (pl.hand.eraseIdx n) card c).players.length
          = g.players.length := by simp [afterDiscard, length_modifyFirst]
      have ht := applyCardEffect_turn rng (afterDiscard g p (pl.hand.eraseIdx n) card c) card x
        he (by rw [hlen]; omega) hlo hdir
      rw [hlen] at ht
      have hidx : (afterDiscard g p (pl.hand.eraseIdx n) card c).currentPlayerIndex
          = g.currentPlayerIndex := rfl
      have hd : (afterDiscard g p (pl.hand.eraseIdx n) card c).direction = g.direction := rfl
      rw [hidx, hd] at ht
      refine ⟨card, rfl, ht.2.1, ht.2.2, ?_⟩
      intro h2 hv
      have hk : turnSteps card.value g.players.length = 2 := by
        rcases hv with hv | hv <;> simp [turnSteps, hv, h2]
      have hcpi := ht.2.2
      simp only [] at hcpi ⊢
      rw [hcpi, hk, h2]
      have hlt : g.currentPlayerIndex < 2 := by
        have : (g.currentPlayerIndex.toNat : Int) < (g.players.length : Int) := by
          exact_mod_cast hhi
        rw [h2] at this
        omega
      omega

/-- C5, instance: in the three-player `tableGame` seat 0 plays its red draw2 on a red 3;
the turn moves two seats on, to seat 2. -/
theorem playCard_turn_advance_witness :
    ∃ card, (successResult ⟨"red", "draw2", "special"⟩ none).card = some card ∧
      (1 : Int) = (if card.value = "reverse" then -tableGame.direction
                   else tableGame.direction) ∧
      (2 : Int)
        = (tableGame.currentPlayerIndex + turnSteps card.value tableGame.players.length * 1)
            % (tableGame.players.length : Int) ∧
      (tableGame.players.length = 2 → card.value = "reverse" ∨ card.value = "skip" →
        (2 : Int) = tableGame.currentPlayerIndex) :=
  playCard_turn_advance orderedRng tableGame "A" 0 none
    (successResult ⟨"red", "draw2", "special"⟩ none,
     { tableGame with
         players :=
           [⟨"A", "Ann", [some ⟨"blue", "7", "number"⟩], 0⟩,
            ⟨"B", "Ben", [some ⟨"green", "1", "number"⟩, some ⟨"green", "9", "number"⟩,
                          some ⟨"blue", "4", "number"⟩], 1⟩,
            ⟨"C", "Cleo", [some ⟨"red", "skip", "special"⟩], 2⟩],
         deck := [some ⟨"yellow", "2", "number"⟩],
         discardPile := [some ⟨"red", "3", "number"⟩, some ⟨"red", "draw2", "special"⟩],
         currentPlayerIndex := 2 },
     orderedRng)
    (by decide) (by decide) (by rfl) (by rfl) (by rfl)

/-- C6, amended (forced draw).  In a game of `N ≥ 3` players with pairwise distinct ids and
`direction` equal to `+1` or `-1`, let the current player `A` make a successful play
without a winner of a `draw2` card (`n = 2`) or a `wild-draw4` card (`n = 4`) while the
deck holds at least `n` cards.  Let `B` be the player at seat
`(currentPlayerIndex + direction) mod N`.  Afterwards the hand of `B` is its old hand
followed by the top `n` cards of the deck, top card first, the deck has lost exactly those
cards, every seat other than those of `A` and `B` holds the same player object (so the
same hand), and `currentPlayerIndex` is the seat next after `B` in direction. -/
theorem playCard_forced_draw (rng : Rng) (g : CardGame) (p : String) (i : Int)
    (c : Option String) (out : PlayResult × CardGame × Rng) (n : Nat) (card : Card)
    (hN : 3 ≤ g.players.length) (hnd : (g.players.map (fun q => q.id)).Nodup)
    (hdir : g.direction = 1 ∨ g.direction = -1)
    (h : playCard rng g p i c = some out) (hs : out.1.success = true)
    (hw : out.1.winner = none) (hcard : out.1.card = some card)
    (hval : (card.value = "draw2" ∧ n = 2) ∨ (card.value = "wild-draw4" ∧ n = 4))
    (hdeck : n ≤ g.deck.length) :
    ∃ A B,
      jsGet g.players g.currentPlayerIndex = some A ∧ A.id = p ∧
      jsGet g.players ((g.currentPlayerIndex + g.direction) % (g.players.length : Int))
        = some B ∧
      jsGet out.2.1.players
          ((g.currentPlayerIndex + g.direction) % (g.players.length : Int))
        = some { B with hand := B.hand ++ g.deck.reverse.take n } ∧
      out.2.1.deck = g.deck.take (g.deck.length - n) ∧
      (∀ k : Int, k ≠ g.currentPlayerIndex →
        k ≠ (g.currentPlayerIndex + g.direction) % (g.players.length : Int) →
        jsGet out.2.1.players k = jsGet g.players k) ∧
      out.2.1.currentPlayerIndex
        = ((g.currentPlayerIndex + g.direction) % (g.players.length : Int) + g.direction)
            % (g.players.length : Int) := by
  obtain ⟨r, g', rng'⟩ := out
  obtain ⟨pl, m, card0, hin, hf, hcard0, hc⟩ := playCard_success_inv h hs
  subst hin
  obtain ⟨A, _, hA, hid, _, _⟩ := canPlayCard_eq_true hc
  obtain ⟨hlo, hhi, hget⟩ := jsGet_eq_some hA
  have hfA := (modifyFirst_eq_set g.players hnd _ A hget id).1
  rw [hid, hf, Option.some.injEq] at hfA
  subst hfA
  have hrest : (pl.hand.eraseIdx m).length ≠ 0 := by
    intro h0
    rw [playCard_of_canPlay rng g p m c pl card0 hf hcard0 hc, if_pos h0] at h
    simp only [Option.some.injEq, Prod.mk.injEq] at h
    rw [← h.1] at hw
    cases hw
  obtain ⟨B, g2, hB, hne, hb0, hplay, hp2, hd2, _, hg1p, hfB, hmB, _, _, hdir2, hidx2⟩ :=
    playCard_nonwinning rng g p m c pl card0 hnd (by omega) hdir hA hid hcard0 hc hrest
  rw [hplay] at h
  simp only [Option.some.injEq, Prod.mk.injEq] at h
  obtain ⟨h1, h2, _⟩ := h
  subst h1 h2
  simp only [successResult, Option.some.injEq] at hcard
  subst hcard
  have hfc : forcedCount card0.value = n := by
    rcases hval with ⟨hv, hn⟩ | ⟨hv, hn⟩ <;> simp [forcedCount, hv, hn]
  have hk : turnSteps card0.value g.players.length = 2 := by
    rcases hval with ⟨hv, _⟩ | ⟨hv, _⟩ <;> simp [turnSteps, hv]
  have hnr : ¬ card0.value = "reverse" := by
    rcases hval with ⟨hv, _⟩ | ⟨hv, _⟩ <;> simp [hv]
  rw [hfc] at hp2 hd2
  rw [forcedDraws_of_deck n rng (nextPlayer (afterDiscard g p (pl.hand.eraseIdx m) card0 c))
    B.id B hfB hdeck] at hp2 hd2
  simp only [] at hp2 hd2
  rw [(nextPlayer_frame _).1, hmB, hg1p] at hp2
  rw [(nextPlayer_frame _).2.1] at hp2 hd2
  have hdk : (afterDiscard g p (pl.hand.eraseIdx m) card0 c).deck = g.deck := rfl
  rw [hdk] at hp2 hd2
  obtain ⟨_, hbl, _⟩ := jsGet_eq_some hB
  refine ⟨pl, B, hA, hid, hB, ?_, hd2, ?_, ?_⟩
  · rw [hp2]
    have := jsGet_set_self
      (g.players.set g.currentPlayerIndex.toNat { pl with hand := pl.hand.eraseIdx m })
      ((g.currentPlayerIndex + g.direction) % (g.players.length : Int)).toNat
      { B with hand := B.hand ++ g.deck.reverse.take n } (by rw [List.length_set]; exact hbl)
    rw [Int.toNat_of_nonneg hb0] at this
    exact this
  · intro k hk1 hk2
    rw [hp2, jsGet_set_ne _ _ _ _ (by rw [Int.toNat_of_nonneg hb0]; exact hk2),
      jsGet_set_ne _ _ _ _ (by rw [Int.toNat_of_nonneg hlo]; exact hk1)]
  · rw [hidx2, hdir2, if_neg hnr, hk, two_steps]

/-- C6, instance of the amended statement: in `tableGame` seat 0 (`A`) plays its red draw2; `B` at seat 1 gets the
green 9 and the blue 4 from the top of the deck, `C` is untouched and is to move. -/
theorem playCard_forced_draw_witness :
    ∃ A B,
      jsGet tableGame.players tableGame.currentPlayerIndex = some A ∧ A.id = "A" ∧
      jsGet tableGame.players
          ((tableGame.currentPlayerIndex + tableGame.direction)
            % (tableGame.players.length : Int)) = some B ∧
      jsGet
          [⟨"A", "Ann", [some ⟨"blue", "7", "number"⟩], 0⟩,
           ⟨"B", "Ben", [some ⟨"green", "1", "number"⟩, some ⟨"green", "9", "number"⟩,
                         some ⟨"blue", "4", "number"⟩], 1⟩,
           ⟨"C", "Cleo", [some ⟨"red", "skip", "special"⟩], 2⟩]
          ((tableGame.currentPlayerIndex + tableGame.direction)
            % (tableGame.players.length : Int))
        = some { B with hand := B.hand ++ tableGame.deck.reverse.take 2 } ∧
      [some ⟨"yellow", "2", "number"⟩] = tableGame.deck.take (tableGame.deck.length - 2) ∧
      (∀ k : Int, k ≠ tableGame.currentPlayerIndex →
        k ≠ (tableGame.currentPlayerIndex + tableGame.direction)
              % (tableGame.players.length : Int) →
        jsGet
          [⟨"A", "Ann", [some ⟨"blue", "7", "number"⟩], 0⟩,
           ⟨"B", "Ben", [some ⟨"green", "1", "number"⟩, some ⟨"green", "9", "number"⟩,
                         some ⟨"blue", "4", "number"⟩], 1⟩,
           ⟨"C", "Cleo", [some ⟨"red", "skip", "special"⟩], 2⟩] k
          = jsGet tableGame.players k) ∧
      (2 : Int)
        = ((tableGame.currentPlayerIndex + tableGame.direction)
              % (tableGame.players.length : Int) + tableGame.direction)
            % (tableGame.players.length : Int) :=
  playCard_forced_draw orderedRng tableGame "A" 0 none
    (successResult ⟨"red", "draw2", "special"⟩ none,
     { tableGame with
         players :=
           [⟨"A", "Ann", [some ⟨"blue", "7", "number"⟩], 0⟩,
            ⟨"B", "Ben", [some ⟨"green", "1", "number"⟩, some ⟨"green", "9", "number"⟩,
                          some ⟨"blue", "4", "number"⟩], 1⟩,
            ⟨"C", "Cleo", [some ⟨"red", "skip", "special"⟩], 2⟩],
         deck := [some ⟨"yellow", "2", "number"⟩],
         discardPile := [some ⟨"red", "3", "number"⟩, some ⟨"red", "draw2", "special"⟩],
         currentPlayerIndex := 2 },
     orderedRng)
    2 ⟨"red", "draw2", "special"⟩
    (by decide) (by decide) (by decide) (by rfl) (by rfl) (by rfl) (by rfl)
    (Or.inl ⟨by rfl, rfl⟩) (by decide)

set_option maxRecDepth 100000 in
/-- C6 as stated fails when two seats carry one id.  In `twinState`, the game `start-game`
builds for the roster `[A, A, B]` on the ordered deck, seat 0 (id `A`) is to move, the
direction is `+1` and the deck holds 86 cards.  Seat 0 plays the wild-draw4 it holds at
index 0: the play succeeds without a winner and the turn passes to seat 2, but the four
forced draws are made for the id of seat 1, which `find` resolves to seat 0: the player
at seat 1, next after the one who played, keeps its seven cards, and seat 0 ends with ten
cards. -/
theorem forced_draw_duplicate_ids :
    (startGame orderedRng "ROOM" twinRoster).map (fun r => r.1) = some twinState ∧
    twinState.players.map (fun q => (q.id, q.hand.length)) = [("A", 7), ("A", 7), ("B", 7)] ∧
    (twinState.currentPlayerIndex, twinState.direction, twinState.deck.length) = (0, 1, 86) ∧
    (playCard orderedRng twinState "A" 0 (some "red")).map
        (fun o => (o.1, o.2.1.currentPlayerIndex))
      = some (successResult ⟨"wild", "wild-draw4", "wild"⟩ none, 2) ∧
    (playCard orderedRng twinState "A" 0 (some "red")).map
        (fun o => o.2.1.players.map (fun q => q.hand.length)) = some [10, 7, 7] ∧
    (playCard orderedRng twinState "A" 0 (some "red")).map
        (fun o => jsGet o.2.1.players 1) = some (jsGet twinState.players 1) ∧
    (playCard orderedRng twinState "A" 0 (some "red")).map
        (fun o => jsGet o.2.1.players 1)
      ≠ some ((jsGet twinState.players 1).map
          (fun q => { q with hand := q.hand ++ twinState.deck.reverse.take 4 })) := by
  refine ⟨twinGame_eq, by decide, by decide, by decide, by decide, by decide, by decide⟩

/-- C7 (win terminality).  Whenever `playCard(p, i, c)` succeeds on the only card left in
the hand of `p`, whatever that card is, the result carries `winner = p`, the engine field
`winner` is `p`, and `currentPlayerIndex`, `direction`, the deck and the player object of
every seat whose id is not `p` (so every other hand) are the ones before the call: no
effect was applied and the turn did not advance. -/
theorem playCard_win_terminal (rng : Rng) (g : CardGame) (p : String) (i : Int)
    (c : Option String) (pl : Player) (out : PlayResult × CardGame × Rng)
    (h : playCard rng g p i c = some out) (hs : out.1.success = true)
    (hf : findPlayer g.players p = some pl) (hlast : pl.hand.length = 1) :
    out.1.winner = some p ∧ out.2.1.winner = some p ∧
    out.2.1.currentPlayerIndex = g.currentPlayerIndex ∧
    out.2.1.direction = g.direction ∧
    out.2.1.deck = g.deck ∧
    out.2.1.players.length = g.players.length ∧
    (∀ (k : Nat) (q : Player), g.players[k]? = some q → q.id ≠ p →
      out.2.1.players[k]? = some q) := by
  obtain ⟨r, g', rng'⟩ := out
  obtain ⟨pl', n, card, hin, hf', hcard, hc⟩ := playCard_success_inv h hs
  rw [hf] at hf'
  cases hf'
  subst hin
  have hlen : (pl.hand.eraseIdx n).length = 0 := by
    have hn : n < pl.hand.length := (List.getElem?_eq_some_iff.mp hcard).1
    rw [List.length_eraseIdx, if_pos hn]
    omega
  rw [playCard_of_canPlay rng g p n c pl card hf hcard hc, if_pos hlen] at h
  simp only [Option.some.injEq, Prod.mk.injEq] at h
  obtain ⟨h1, h2, _⟩ := h
  subst h1 h2
  refine ⟨rfl, rfl, rfl, rfl, rfl, ?_, ?_⟩
  · simp [afterDiscard, length_modifyFirst]
  · intro k q hq hne
    exact getElem_modifyFirst_of_ne p _ g.players k q hq hne

/-- C7, instance: in `tableGame` with the turn at seat 2, `C` plays its last card, a red
skip, and wins; nobody is skipped. -/
theorem playCard_win_terminal_witness :
    (successResult ⟨"red", "skip", "special"⟩ (some "C")).winner = some "C" ∧
    (some "C" : Option String) = some "C" ∧
    (2 : Int) = ({ tableGame with currentPlayerIndex := 2 } : CardGame).currentPlayerIndex ∧
    (1 : Int) = ({ tableGame with currentPlayerIndex := 2 } : CardGame).direction ∧
    tableGame.deck = ({ tableGame with currentPlayerIndex := 2 } : CardGame).deck ∧
    3 = ({ tableGame with currentPlayerIndex := 2 } : CardGame).players.length ∧
    (∀ (k : Nat) (q : Player), ({ tableGame with currentPlayerIndex := 2 } : CardGame).players[k]? = some q →
      q.id ≠ "C" →
      (modifyFirst "C" (fun q => { q with hand := [] }) tableGame.players)[k]? = some q) :=
  playCard_win_terminal orderedRng { tableGame with currentPlayerIndex := 2 } "C" 0 none
    ⟨"C", "Cleo", [some ⟨"red", "skip", "special"⟩], 2⟩
    (successResult ⟨"red", "skip", "special"⟩ (some "C"),
     { tableGame with
         currentPlayerIndex := 2, winner := some "C",
         discardPile := tableGame.discardPile ++ [some ⟨"red", "skip", "special"⟩],
         players := modifyFirst "C" (fun q => { q with hand := [] }) tableGame.players },
     orderedRng)
    (by rfl) (by rfl) (by decide) (by decide)

/-- C8 (projection privacy as non-interference).  Let two engine states of one room have
the same number of players and agree, seat by seat, on id, name, position and hand size,
and on the whole hand of every seat whose id is `P`; let them agree on the discard top,
the deck size, `currentColor`, `currentPlayerIndex`, `direction`, `gameStarted` and
`winner`.  The hands of the other players, the contents and order of the deck and the
discard pile below its top are free.  Then `getGameState(P)` gives the same result on
both, and in a returned view the `hand` field of every player whose id is not `P` is
`undefined`.  Distinct ids are not needed: agreement is asked of every seat with id `P`. -/
theorem getGameState_noninterference (P : String) (g1 g2 : CardGame)
    (hroom : g1.roomId = g2.roomId)
    (hlen : g1.players.length = g2.players.length)
    (hpl : ∀ pr ∈ List.zip g1.players g2.players,
      pr.1.id = pr.2.id ∧ pr.1.name = pr.2.name ∧ pr.1.position = pr.2.position ∧
      pr.1.hand.length = pr.2.hand.length ∧ (pr.1.id = P → pr.1.hand = pr.2.hand))
    (htop : jsLast g1.discardPile = jsLast g2.discardPile)
    (hdeck : g1.deck.length = g2.deck.length)
    (hcolor : g1.currentColor = g2.currentColor)
    (hidx : g1.currentPlayerIndex = g2.currentPlayerIndex)
    (hdir : g1.direction = g2.direction)
    (hstarted : g1.gameStarted = g2.gameStarted)
    (hwinner : g1.winner = g2.winner) :
    getGameState g1 (some P) = getGameState g2 (some P) ∧
    ∀ v, getGameState g1 (some P) = some v →
      ∀ pv ∈ v.players, pv.id ≠ P → pv.hand = none := by
  have hview : ∀ pr ∈ List.zip g1.players g2.players,
      viewPlayer (some P) pr.1 = viewPlayer (some P) pr.2 := by
    intro pr hpr
    obtain ⟨h1, h2, h3, h4, h5⟩ := hpl pr hpr
    unfold viewPlayer
    by_cases hP : pr.1.id = P
    · have hP2 : pr.2.id = P := h1 ▸ hP
      simp [h1, h2, h3, h4, h5 hP, hP2]
    · have hP2 : ¬ pr.2.id = P := h1 ▸ hP
      simp [h1, h2, h3, h4, hP2]
  have hmap : g1.players.map (viewPlayer (some P)) = g2.players.map (viewPlayer (some P)) :=
    map_eq_of_zip (viewPlayer (some P)) g1.players g2.players hlen hview
  have hcur : (jsGet g1.players g1.currentPlayerIndex).map (fun q => q.id)
      = (jsGet g2.players g2.currentPlayerIndex).map (fun q => q.id) := by
    have hids : g1.players.map (fun q => q.id) = g2.players.map (fun q => q.id) :=
      map_eq_of_zip (fun q => q.id) g1.players g2.players hlen
        (fun pr hpr => (hpl pr hpr).1)
    rw [← hidx]
    unfold jsGet
    split
    · rfl
    · rw [← List.getElem?_map, ← List.getElem?_map, hids]
  constructor
  · unfold getGameState
    cases h1 : jsGet g1.players g1.currentPlayerIndex with
    | none =>
      rw [h1] at hcur
      cases h2 : jsGet g2.players g2.currentPlayerIndex with
      | none => rfl
      | some c2 => rw [h2] at hcur; cases hcur
    | some c1 =>
      rw [h1] at hcur
      cases h2 : jsGet g2.players g2.currentPlayerIndex with
      | none => rw [h2] at hcur; cases hcur
      | some c2 =>
        rw [h2] at hcur
        simp only [Option.map_some', Option.some.injEq] at hcur
        simp only [hroom, hmap, htop, hcolor, hidx, hcur, hdeck, hdir, hstarted, hwinner]
  · intro v hv pv hpv hne
    unfold getGameState at hv
    split at hv
    · cases hv
    · simp only [Option.some.injEq] at hv
      subst hv
      simp only [List.mem_map] at hpv
      obtain ⟨q, _, hq⟩ := hpv
      subst hq
      have : ¬ q.id = P := hne
      simp [viewPlayer, this]

/-- C8, instance: `tableGame` and `tableGameHidden` differ in the hands of `B` and `C`,
in the deck and under the discard top, and `A` gets the same view of both. -/
theorem getGameState_noninterference_witness :
    getGameState tableGame (some "A") = getGameState tableGameHidden (some "A") ∧
    ∀ v, getGameState tableGame (some "A") = some v →
      ∀ pv ∈ v.players, pv.id ≠ "A" → pv.hand = none :=
  getGameState_noninterference "A" tableGame tableGameHidden (by decide) (by decide)
    (by decide) (by decide) (by decide) (by decide) (by decide) (by decide) (by decide)
    (by decide)

/-- C9, amended (reshuffle correctness).  In every engine state whose deck is empty and
whose discard pile holds at least two entries, and for every engine player `p`,
`drawCard(p)` returns a value `s` popped from the reshuffled deck (not `null`); afterwards
the discard pile is exactly the old discard top, `s` has been appended to the hand of `p`,
and `s` together with the new deck is a permutation of the old discard pile without its
top.  When every entry of the old discard pile is a card, `s` is a card. -/
theorem drawCard_reshuffle (rng : Rng) (g : CardGame) (p : String) (pl : Player)
    (hf : findPlayer g.players p = some pl) (hdeck : g.deck = [])
    (hdisc : 2 ≤ g.discardPile.length) :
    ∃ (s top : Slot),
      (drawCard rng g p).1 = some s ∧
      g.discardPile.getLast? = some top ∧
      (drawCard rng g p).2.1.discardPile = [top] ∧
      findPlayer (drawCard rng g p).2.1.players p = some { pl with hand := pl.hand ++ [s] } ∧
      (s :: (drawCard rng g p).2.1.deck).Perm g.discardPile.dropLast ∧
      ((∀ x ∈ g.discardPile, x ≠ none) → s ≠ none) := by
  have hperm := shuffleDeck_perm rng g.discardPile.dropLast
  have hne : (shuffleDeck rng g.discardPile.dropLast).1 ≠ [] := by
    intro h0
    have := hperm.length_eq
    rw [h0, List.length_dropLast] at this
    simp only [List.length_nil] at this
    omega
  have hdne : g.discardPile ≠ [] := by
    intro h0; rw [h0] at hdisc; simp at hdisc
  obtain ⟨init, x, hx⟩ : ∃ init x, (shuffleDeck rng g.discardPile.dropLast).1 = init ++ [x] :=
    ⟨_, _, (List.dropLast_append_getLast hne).symm⟩
  have hlast : jsLast (shuffleDeck rng g.discardPile.dropLast).1 = x := by
    rw [hx]; exact jsLast_append_singleton init x
  have htop : jsLast g.discardPile = g.discardPile.getLast hdne := by
    simp [jsLast, List.getLast?_eq_getLast _ hdne]
  refine ⟨x, g.discardPile.getLast hdne, ?_, List.getLast?_eq_getLast _ hdne, ?_, ?_, ?_, ?_⟩
  · rw [drawCard_of_deck_nil rng g p pl hf hdeck, hlast]
  · rw [drawCard_of_deck_nil rng g p pl hf hdeck, htop]
  · rw [drawCard_of_deck_nil rng g p pl hf hdeck, hlast]
    simp only []
    rw [findPlayer_modifyFirst p (fun q => { q with hand := q.hand ++ [x] }) (fun _ => rfl)
      g.players, hf]
    rfl
  · rw [drawCard_of_deck_nil rng g p pl hf hdeck]
    simp only []
    rw [hx, List.dropLast_concat]
    have h1 : (x :: init).Perm (init ++ [x]) := by
      simpa using (List.perm_append_comm : ([x] ++ init).Perm (init ++ [x]))
    rw [← hx] at h1
    exact h1.trans hperm
  · intro hall
    have hxm : x ∈ (shuffleDeck rng g.discardPile.dropLast).1 := by
      rw [hx]; simp
    have hxd : x ∈ g.discardPile.dropLast := hperm.mem_iff.mp hxm
    exact hall x (List.mem_of_mem_dropLast hxd)

/-- C9, instance of the amended statement: with the deck of `tableGameHidden` emptied,
`B` draws the green 3 that lay under the red 3. -/
theorem drawCard_reshuffle_witness :
    ∃ (s top : Slot),
      (drawCard orderedRng { tableGameHidden with deck := [] } "B").1 = some s ∧
      tableGameHidden.discardPile.getLast? = some top ∧
      (drawCard orderedRng { tableGameHidden with deck := [] } "B").2.1.discardPile = [top] ∧
      findPlayer (drawCard orderedRng { tableGameHidden with deck := [] } "B").2.1.players "B"
        = some { id := "B", name := "Ben",
                 hand := [some ⟨"wild", "wild", "wild"⟩] ++ [s], position := 1 } ∧
      (s :: (drawCard orderedRng { tableGameHidden with deck := [] } "B").2.1.deck).Perm
        tableGameHidden.discardPile.dropLast ∧
      ((∀ x ∈ tableGameHidden.discardPile, x ≠ none) → s ≠ none) :=
  drawCard_reshuffle orderedRng { tableGameHidden with deck := [] } "B"
    ⟨"B", "Ben", [some ⟨"wild", "wild", "wild"⟩], 1⟩ (by decide) (by decide) (by decide)

set_option maxRecDepth 100000 in
/-- C9 as stated fails: let `A` draw 93 times from the opening position `openingState`.
The deck is then empty and the discard pile holds one card, the yellow 9.  The next
`drawCard('B')` returns `undefined`, appends it to the hand of `B`, and leaves the deck
empty: no card is returned, and the returned value with the new deck is one entry more
than the old discard pile without its top, which is empty. -/
theorem drawCard_single_discard_returns_undefined :
    (forcedDraws 93 orderedRng openingState "A").1.deck = [] ∧
    (forcedDraws 93 orderedRng openingState "A").1.discardPile
      = [some ⟨"yellow", "9", "number"⟩] ∧
    (findPlayer (forcedDraws 93 orderedRng openingState "A").1.players "B").isSome = true ∧
    (drawCard orderedRng (forcedDraws 93 orderedRng openingState "A").1 "B").1 = some none ∧
    (drawCard orderedRng (forcedDraws 93 orderedRng openingState "A").1 "B").2.1.deck = [] ∧
    (findPlayer
        (drawCard orderedRng (forcedDraws 93 orderedRng openingState "A").1 "B").2.1.players
        "B").map (fun q => q.hand.getLast?) = some (some none) ∧
    ¬ ∃ s : Slot,
      (s :: (drawCard orderedRng (forcedDraws 93 orderedRng openingState "A").1 "B").2.1.deck).Perm
        (forcedDraws 93 orderedRng openingState "A").1.discardPile.dropLast := by
  have hdeck : (forcedDraws 93 orderedRng openingState "A").1.deck = [] := by decide
  have hdisc : (forcedDraws 93 orderedRng openingState "A").1.discardPile
      = [some ⟨"yellow", "9", "number"⟩] := by decide
  refine ⟨hdeck, hdisc, by decide, by decide, by decide, by decide, ?_⟩
  rintro ⟨s, hs⟩
  rw [hdisc] at hs
  have := hs.length_eq
  simp at this

set_option maxRecDepth 100000 in
/-- C10 (stale index), evaluated on the opening position `openingState` of a two-player
game, where `A` is to move and holds seven cards: `playCard('A', 7)` and `playCard('A', -1)`
do not return a result at all, because `canPlayCard` reads `card.type` of `undefined` and
throws; the same stale index sent by `B`, who is not to move, is answered with
`{ success: false, message: 'Invalid card' }` and leaves the state as it was. -/
theorem playCard_stale_index_throws :
    openingGame = some openingState ∧
    jsGet openingState.players openingState.currentPlayerIndex
      = findPlayer openingState.players "A" ∧
    (findPlayer openingState.players "A").map (fun q => q.hand.length) = some 7 ∧
    (playCard orderedRng openingState "A" 7 none).isNone = true ∧
    (playCard orderedRng openingState "A" (-1) none).isNone = true ∧
    (playCard orderedRng openingState "B" 7 none).map (fun o => (o.1, o.2.1))
      = some (invalidCard, openingState) := by
  refine ⟨openingGame_eq, by decide, by decide, by decide, by decide, by decide⟩

/-- C11 (turn-pointer invariant).  Let a game be constructed for a roster of `N ≥ 2`
players, with any outcome of the shuffle.  In every engine state reached from it by
`dealCards` followed by any finite sequence of `playCard`, `drawCard` and `nextPlayer`
calls that return, with any arguments, `direction` is `+1` or `-1`,
`0 ≤ currentPlayerIndex < N`, the engine still has `N` players, and
`players[currentPlayerIndex]` exists. -/
theorem turn_pointer_invariant (rng : Rng) (roomId : String) (roster : List RosterEntry)
    (g : CardGame) (hN : 2 ≤ roster.length)
    (h : Reachable (fun _ => True) (CardGame.create rng roomId roster).1 g) :
    (g.direction = 1 ∨ g.direction = -1) ∧
    0 ≤ g.currentPlayerIndex ∧ g.currentPlayerIndex < (roster.length : Int) ∧
    g.players.length = roster.length ∧
    ∃ q, jsGet g.players g.currentPlayerIndex = some q := by
  have h0 : (CardGame.create rng roomId roster).1.direction = 1 ∧
      (CardGame.create rng roomId roster).1.currentPlayerIndex = 0 ∧
      (CardGame.create rng roomId roster).1.players.length = roster.length :=
    ⟨rfl, rfl, (handTotal_mkPlayers 0 roster).2⟩
  obtain ⟨hdir, hlo, hhi, hlen⟩ :=
    pointer_reachable (fun _ => True) _ g roster.length (by omega) h0 h
  refine ⟨hdir, hlo, hhi, hlen, ?_⟩
  obtain ⟨q, hq, _⟩ := jsGet_of_bounds g.players g.currentPlayerIndex hlo (by rw [hlen]; exact hhi)
  exact ⟨q, hq⟩

/-- C11, instance: the two-player game dealt from the ordered deck, after `A` has played
the wild it holds at index 1 (choosing green) and `nextPlayer` has been called once
more. -/
theorem turn_pointer_invariant_witness :
    ((nextPlayer afterWildState).direction = 1 ∨ (nextPlayer afterWildState).direction = -1) ∧
    0 ≤ (nextPlayer afterWildState).currentPlayerIndex ∧
    (nextPlayer afterWildState).currentPlayerIndex < (roster2.length : Int) ∧
    (nextPlayer afterWildState).players.length = roster2.length ∧
    ∃ q, jsGet (nextPlayer afterWildState).players (nextPlayer afterWildState).currentPlayerIndex
      = some q :=
  turn_pointer_invariant orderedRng "ROOM" roster2 (nextPlayer afterWildState) (by decide)
    (Reachable.next afterWildState
      (Reachable.play orderedRng { openingState with gameStarted := false } "A" 1
        (some "green")
        (successResult ⟨"wild", "wild", "wild"⟩ none, afterWildState, orderedRng)
        (Reachable.deal _ dealCards_ordered) trivial (by rfl)))

/-- C12, amended (current-color invariant).  Let a game be constructed on the standard
deck, with any roster and any outcome of the shuffle.  In every engine state reached from
it by `dealCards` followed by any finite sequence of `drawCard` calls and of `playCard`
calls whose `chosenColor` is absent, the empty string or one of `'red'`, `'blue'`,
`'green'`, `'yellow'` (`canonicalChoice`), `currentColor` is one of these four colors,
and so is not `'wild'`. -/
theorem current_color_invariant (rng : Rng) (roomId : String) (roster : List RosterEntry)
    (g : CardGame)
    (h : Reachable canonicalChoice (CardGame.create rng roomId roster).1 g) :
    (∃ s ∈ ["red", "blue", "green", "yellow"], g.currentColor = some s) ∧
    g.currentColor ≠ some "wild" := by
  obtain ⟨_, s, hs, hcol⟩ := color_reachable _ g (create_allOK rng roomId roster) h
  refine ⟨⟨s, hs, hcol⟩, ?_⟩
  intro hw
  rw [hcol, Option.some.injEq] at hw
  rw [hw] at hs
  revert hs
  decide

/-- C12, instance of the amended statement: the two-player game dealt from the ordered
deck, after `A` has played the wild it holds at index 1 and chosen green. -/
theorem current_color_invariant_witness :
    (∃ s ∈ ["red", "blue", "green", "yellow"], afterWildState.currentColor = some s) ∧
    afterWildState.currentColor ≠ some "wild" :=
  current_color_invariant orderedRng "ROOM" roster2 afterWildState
    (Reachable.play orderedRng { openingState with gameStarted := false } "A" 1
      (some "green")
      (successResult ⟨"wild", "wild", "wild"⟩ none, afterWildState, orderedRng)
      (Reachable.deal _ dealCards_ordered)
      (fun s hs => Or.inr (by cases hs; decide)) (by rfl))

set_option maxRecDepth 100000 in
/-- C12 as stated fails: in the opening position `openingState` of a two-player game, `A`
plays the wild it holds at index 1 and sends `'purple'` as `chosenColor`; the play
succeeds and `currentColor` is `'purple'`.  Sending `'wild'` makes `currentColor`
`'wild'`. -/
theorem playCard_foreign_color :
    openingGame = some openingState ∧
    (playCard orderedRng openingState "A" 1 (some "purple")).map
        (fun o => (o.1.success, o.2.1.currentColor)) = some (true, some "purple") ∧
    "purple" ∉ ["red", "blue", "green", "yellow"] ∧
    (playCard orderedRng openingState "A" 1 (some "wild")).map
        (fun o => (o.1.success, o.2.1.currentColor)) = some (true, some "wild") := by
  refine ⟨openingGame_eq, by decide, by decide, by decide⟩

set_option maxRecDepth 100000 in
/-- C13 (deck composition).  For every outcome of the shuffle, the deck of a newly
constructed `CardGame` holds 108 entries, every one a card, and as a multiset it is the
standard deck: for each of the four colors one `0`, two of each of `1` .. `9` (type
number) and two each of skip, reverse and draw2 (type special), and four wild and four
wild-draw4 cards of color `wild` (type wild); every card of the deck is of one of these
kinds, and the counts add up to 108.  `shuffleDeck` returns a permutation of the deck it
is given: it adds, drops and duplicates nothing. -/
theorem deck_composition (rng : Rng) (roomId : String) (roster : List RosterEntry) :
    (CardGame.create rng roomId roster).1.deck.length = 108 ∧
    (∀ s ∈ (CardGame.create rng roomId roster).1.deck, s ≠ none) ∧
    (∀ color ∈ ["red", "blue", "green", "yellow"],
      copies ⟨color, "0", "number"⟩ (CardGame.create rng roomId roster).1.deck = 1 ∧
      (∀ v ∈ ["1", "2", "3", "4", "5", "6", "7", "8", "9"],
        copies ⟨color, v, "number"⟩ (CardGame.create rng roomId roster).1.deck = 2) ∧
      (∀ v ∈ ["skip", "reverse", "draw2"],
        copies ⟨color, v, "special"⟩ (CardGame.create rng roomId roster).1.deck = 2)) ∧
    copies ⟨"wild", "wild", "wild"⟩ (CardGame.create rng roomId roster).1.deck = 4 ∧
    copies ⟨"wild", "wild-draw4", "wild"⟩ (CardGame.create rng roomId roster).1.deck = 4 ∧
    (∀ c : Card, some c ∈ (CardGame.create rng roomId roster).1.deck →
      (c.type = "number" ∧ c.color ∈ ["red", "blue", "green", "yellow"] ∧
        c.value ∈ ["0", "1", "2", "3", "4", "5", "6", "7", "8", "9"]) ∨
      (c.type = "special" ∧ c.color ∈ ["red", "blue", "green", "yellow"] ∧
        c.value ∈ ["skip", "reverse", "draw2"]) ∨
      (c.type = "wild" ∧ c.color = "wild" ∧ c.value ∈ ["wild", "wild-draw4"])) ∧
    4 * (1 + 9 * 2 + 3 * 2) + 4 + 4 = 108 ∧
    (∀ (r : Rng) (deck : List Slot), (shuffleDeck r deck).1.Perm deck) := by
  have hperm := create_deck_perm rng roomId roster
  have hcount : ∀ c : Card, copies c (CardGame.create rng roomId roster).1.deck
      = copies c (unshuffledDeck.map some) := fun c => hperm.countP_eq _
  have hkinds : ∀ c ∈ unshuffledDeck,
      (c.type = "number" ∧ c.color ∈ ["red", "blue", "green", "yellow"] ∧
        c.value ∈ ["0", "1", "2", "3", "4", "5", "6", "7", "8", "9"]) ∨
      (c.type = "special" ∧ c.color ∈ ["red", "blue", "green", "yellow"] ∧
        c.value ∈ ["skip", "reverse", "draw2"]) ∨
      (c.type = "wild" ∧ c.color = "wild" ∧ c.value ∈ ["wild", "wild-draw4"]) := by
    decide
  refine ⟨?_, ?_, ?_, ?_, ?_, ?_, by decide, fun r deck => shuffleDeck_perm r deck⟩
  · rw [hperm.length_eq]; decide
  · intro s hs
    have : s ∈ unshuffledDeck.map some := hperm.mem_iff.mp hs
    obtain ⟨c, _, hc⟩ := List.mem_map.mp this
    rw [← hc]; simp
  · simp only [hcount]
    decide
  · rw [hcount]; decide
  · rw [hcount]; decide
  · intro c hc
    have : some c ∈ unshuffledDeck.map some := hperm.mem_iff.mp hc
    obtain ⟨d, hd, hdc⟩ := List.mem_map.mp this
    cases hdc
    exact hkinds c hd

/-- C14 (initial deal).  Let a game hold any ordering of the 108-card standard deck, an
empty discard pile and `N` players with empty hands, `2 ≤ N ≤ 4`.  Then `dealCards`
returns (it never pops from an empty deck: it pops `7 * N + w + 1 ≤ 108` cards).
Afterwards seat `k` holds exactly the seven cards at depth `7k .. 7k + 6` from the top of
the deck, in the order popped, all of them cards; the `w = setAside` cards popped next are
all wild and `w ≤ 8`; the card popped after them is not wild, is the only entry of the
discard pile, and `currentColor` is its color; and the deck is what was under it,
`108 - 7 * N - 1 - w` cards. -/
theorem dealCards_initial (g0 : CardGame)
    (hdeck : g0.deck.Perm (unshuffledDeck.map some))
    (hN : 2 ≤ g0.players.length ∧ g0.players.length ≤ 4)
    (hhands : ∀ q ∈ g0.players, q.hand = []) (hdisc : g0.discardPile = []) :
    ∃ g1 top,
      dealCards g0 = some g1 ∧
      7 * g0.players.length + setAside g0 + 1 ≤ 108 ∧
      g1.players.length = g0.players.length ∧
      (∀ (k : Nat) (q : Player), g0.players[k]? = some q →
        g1.players[k]? = some { q with hand := (g0.deck.reverse.drop (7 * k)).take 7 } ∧
        ((g0.deck.reverse.drop (7 * k)).take 7).length = 7 ∧
        ∀ s ∈ (g0.deck.reverse.drop (7 * k)).take 7, s ≠ none) ∧
      setAside g0 ≤ 8 ∧
      (∀ s ∈ (g0.deck.reverse.drop (7 * g0.players.length)).take (setAside g0),
        ∃ c, s = some c ∧ c.type = "wild") ∧
      g0.deck.reverse[7 * g0.players.length + setAside g0]? = some (some top) ∧
      top.type ≠ "wild" ∧
      g1.discardPile = [some top] ∧
      g1.currentColor = some top.color ∧
      g1.deck = g0.deck.take (108 - 7 * g0.players.length - 1 - setAside g0) ∧
      g1.deck.length = 108 - 7 * g0.players.length - 1 - setAside g0 := by
  have hlen : g0.deck.length = 108 := by rw [hdeck.length_eq]; exact unshuffledDeck_facts.1
  obtain ⟨hd2, hd1⟩ := dealHands_eq g0.players g0.deck (by rw [hlen]; omega)
  have hrev : (dealHands g0.players g0.deck).2.reverse
      = g0.deck.reverse.drop (7 * g0.players.length) := by
    rw [hd2, List.reverse_take]
    congr 1
    omega
  obtain ⟨top, rest, h1, h2, h3, h4, h5⟩ :=
    seed_after_hands g0.deck g0.players.length hdeck hN.2
  have hw : setAside g0
      = ((g0.deck.reverse.drop (7 * g0.players.length)).takeWhile isWildSlot).length := by
    unfold setAside
    rw [hrev]
  have hdeal : dealCards g0 = some { g0 with
      players := (dealHands g0.players g0.deck).1, deck := rest.reverse,
      discardPile := g0.discardPile ++ [some top], currentColor := some top.color } := by
    unfold dealCards
    simp only [hrev, h1]
  have hrest : rest.reverse = g0.deck.take (108 - 7 * g0.players.length - 1 - setAside g0) := by
    have hR : (g0.deck.reverse.drop (7 * g0.players.length)).reverse
        = g0.deck.take (108 - 7 * g0.players.length) := by
      rw [← hrev, List.reverse_reverse, hd2, hlen]
    have hsplit := congrArg List.reverse h2
    rw [hR, List.reverse_append, List.reverse_cons, List.append_assoc] at hsplit
    have htake := congrArg (List.take rest.reverse.length) hsplit
    rw [List.take_left, List.take_take] at htake
    rw [← htake]
    congr 1
    rw [List.length_reverse, hw]
    omega
  refine ⟨_, top, hdeal, by rw [hw]; omega, length_dealHands _ _, ?_, by rw [hw]; exact h4, ?_,
    ?_, h3, by simp [hdisc], rfl, hrest, ?_⟩
  · intro k q hq
    have hk : k < g0.players.length := (List.getElem?_eq_some_iff.mp hq).1
    have hqh : q.hand = [] := hhands q (List.mem_iff_getElem?.mpr ⟨k, hq⟩)
    have hslice : ((g0.deck.reverse.drop (7 * k)).take 7).length = 7 := by
      rw [List.length_take, List.length_drop, List.length_reverse, hlen]
      omega
    refine ⟨?_, hslice, ?_⟩
    · show (dealHands g0.players g0.deck).1[k]? = _
      rw [hd1 k q hq, hqh, List.nil_append]
    · intro s hs
      have h1 : s ∈ g0.deck :=
        List.mem_reverse.mp (List.mem_of_mem_drop (List.mem_of_mem_take hs))
      have h2 : s ∈ unshuffledDeck.map some := hdeck.mem_iff.mp h1
      obtain ⟨c, _, hc⟩ := List.mem_map.mp h2
      rw [← hc]; simp
  · intro s hs
    have htw : (g0.deck.reverse.drop (7 * g0.players.length)).take (setAside g0)
        = (g0.deck.reverse.drop (7 * g0.players.length)).takeWhile isWildSlot := by
      rw [hw]
      obtain ⟨tw, htw⟩ : ∃ tw,
          tw = (g0.deck.reverse.drop (7 * g0.players.length)).takeWhile isWildSlot := ⟨_, rfl⟩
      rw [← htw] at h2 ⊢
      rw [h2]
      exact List.take_left _ _
    rw [htw] at hs
    have hp : isWildSlot s = true := List.mem_takeWhile_imp hs
    cases s with
    | none => simp [isWildSlot] at hp
    | some c => exact ⟨c, rfl, by simpa [isWildSlot] using hp⟩
  · rw [← List.getElem?_drop, hw]
    obtain ⟨tw, htw⟩ : ∃ tw,
        tw = (g0.deck.reverse.drop (7 * g0.players.length)).takeWhile isWildSlot := ⟨_, rfl⟩
    rw [← htw] at h2 ⊢
    rw [h2, List.getElem?_append_right (Nat.le_refl _)]
    simp
  · show rest.reverse.length = _
    rw [hrest, List.length_take, hlen]
    omega

/-- C14, instance: the two-player game constructed with the deck in construction order. -/
theorem dealCards_initial_witness :
    ∃ g1 top,
      dealCards (CardGame.create orderedRng "ROOM" roster2).1 = some g1 ∧
      7 * (CardGame.create orderedRng "ROOM" roster2).1.players.length
        + setAside (CardGame.create orderedRng "ROOM" roster2).1 + 1 ≤ 108 ∧
      g1.players.length = (CardGame.create orderedRng "ROOM" roster2).1.players.length ∧
      (∀ (k : Nat) (q : Player),
        (CardGame.create orderedRng "ROOM" roster2).1.players[k]? = some q →
        g1.players[k]? = some { q with hand :=
          ((CardGame.create orderedRng "ROOM" roster2).1.deck.reverse.drop (7 * k)).take 7 } ∧
        (((CardGame.create orderedRng "ROOM" roster2).1.deck.reverse.drop (7 * k)).take
          7).length = 7 ∧
        ∀ s ∈ ((CardGame.create orderedRng "ROOM" roster2).1.deck.reverse.drop (7 * k)).take 7,
          s ≠ none) ∧
      setAside (CardGame.create orderedRng "ROOM" roster2).1 ≤ 8 ∧
      (∀ s ∈ ((CardGame.create orderedRng "ROOM" roster2).1.deck.reverse.drop
            (7 * (CardGame.create orderedRng "ROOM" roster2).1.players.length)).take
          (setAside (CardGame.create orderedRng "ROOM" roster2).1),
        ∃ c, s = some c ∧ c.type = "wild") ∧
      (CardGame.create orderedRng "ROOM" roster2).1.deck.reverse[
          7 * (CardGame.create orderedRng "ROOM" roster2).1.players.length
            + setAside (CardGame.create orderedRng "ROOM" roster2).1]? = some (some top) ∧
      top.type ≠ "wild" ∧
      g1.discardPile = [some top] ∧
      g1.currentColor = some top.color ∧
      g1.deck = (CardGame.create orderedRng "ROOM" roster2).1.deck.take
        (108 - 7 * (CardGame.create orderedRng "ROOM" roster2).1.players.length - 1
          - setAside (CardGame.create orderedRng "ROOM" roster2).1) ∧
      g1.deck.length
        = 108 - 7 * (CardGame.create orderedRng "ROOM" roster2).1.players.length - 1
          - setAside (CardGame.create orderedRng "ROOM" roster2).1 :=
  dealCards_initial (CardGame.create orderedRng "ROOM" roster2).1
    (create_deck_perm orderedRng "ROOM" roster2) (by decide) (by decide) (by rfl)

set_option maxRecDepth 100000 in
/-- C15 (start-game rejection), evaluated on a room of two players `A`, `B` that holds a
started game in progress (`A` has played a wild and chosen green; `gameStarted` is true,
so `join-room` answers `Game already in progress`).  A start-game intent on this room is
not rejected: no `error` is sent, a new engine is built, dealt and stored on the room in
place of the game in progress, and `game-started` is sent to both players.  With a
roster of one player the intent is rejected with `Need at least 2 players to start` and
the room is left as it was. -/
theorem startGame_replaces_started_game :
    gameInProgress ⟨roster2, some { afterWildState with gameStarted := true }⟩ = true ∧
    (onStartGame orderedRng "ROOM"
        ⟨roster2, some { afterWildState with gameStarted := true }⟩).map
        (fun o => (o.1.error, o.1.room, o.1.started.map (fun v => v.1)))
      = some (none, ⟨roster2, some openingState⟩, ["A", "B"]) ∧
    openingState ≠ { afterWildState with gameStarted := true } ∧
    (onStartGame orderedRng "ROOM"
        ⟨[⟨"A", "Ann"⟩], some { afterWildState with gameStarted := true }⟩).map
        (fun o => (o.1.error, o.1.room, o.1.started.map (fun v => v.1)))
      = some (some "Need at least 2 players to start",
              ⟨[⟨"A", "Ann"⟩], some { afterWildState with gameStarted := true }⟩, []) := by
  refine ⟨by decide, by decide, by decide, by decide⟩

end Uno
